import Mathlib

/-!
# Tracer: masking, cause resolution and equality of error records

A shallow embedding of the Go package `tracer` (`error.go`, `cause_mask.go`, `json.go`).

Go's `*Error` values are pointers, and the package compares them by identity, so the
embedding keeps an explicit heap of records: an address is an index into the heap, an
allocation appends a record, and a write through a pointer replaces the record stored at
that address.  A function that can fault at run time (a nil pointer dereference, a failed
type assertion) returns `none`.
-/

namespace Tracer

set_option linter.dupNamespace false

/-- A non-record error value held in an `error` interface: the name `%T` prints for its
dynamic type, a token standing for the value the interface holds (the address, for the
pointer types `errors.New` and `fmt.Errorf` return), the text of its `Error()` method, and
whether `==` can compare values of the dynamic type (it can for pointers and strings; for
slices, maps and functions it faults at run time). -/
structure Foreign where
  typ : String
  ident : Nat
  msg : String
  comparable : Bool
deriving DecidableEq, Repr

/-- A Go value of interface type `error`: the nil interface, a `*Error` (whose pointer may
itself be nil, `record none`), or a value of any other dynamic type. -/
inductive GoError where
  | nil
  | record (p : Option Nat)
  | other (o : Foreign)
deriving DecidableEq, Repr

/-- The struct `Error` of `error.go`; `Typ` is its field `Type`. -/
structure Error where
  Anno : String := ""
  Desc : String := ""
  Docs : String := ""
  Kind : String := ""
  Stck : String := ""
  Typ : String := ""
  Wrpd : GoError := GoError.nil
deriving DecidableEq, Repr

/-- The records allocated so far; the address of a record is its position. -/
abbrev Heap := List Error

/-- Reading through a `*Error`: faults on the nil pointer. -/
def Heap.deref (h : Heap) (e : Option Nat) : Option Error :=
  match e with
  | none => none
  | some a => h[a]?

/-- The allocation `&Error{...}`: the new record gets the next free address. -/
def Heap.alloc (h : Heap) (r : Error) : Heap × Option Nat :=
  (h ++ [r], some h.length)

/-- A field assignment through a `*Error`: the record at that address is replaced by
`f` of it; faults on the nil pointer. -/
def Heap.update (h : Heap) (e : Option Nat) (f : Error → Error) : Option Heap :=
  match e with
  | none => none
  | some a =>
    match h[a]? with
    | none => none
    | some r => some (h.set a (f r))

/-- What `fmt.Sprintf("%T", err)` prints. -/
def typeName (err : GoError) : String :=
  match err with
  | GoError.nil => "<nil>"
  | GoError.record _ => "*tracer.Error"
  | GoError.other o => o.typ

/-- What `fmt.Sprintf("%s:%d", file, line)` prints. -/
def frameOf (file : String) (line : Int) : String :=
  file ++ ":" ++ toString line

/-- The method `(e *Error) Copy()`. -/
def Error.Copy (h : Heap) (e : Option Nat) : Option (Heap × Option Nat) := do
  let r ← h.deref e
  pure (h.alloc
    { Anno := r.Anno, Desc := r.Desc, Docs := r.Docs, Kind := r.Kind,
      Stck := r.Stck, Typ := r.Typ, Wrpd := r.Wrpd })

/-- The method `(e *Error) Error()`; `toStringCase` is the package's rendering of a kind. -/
def Error.Error (toStringCase : String → String) (h : Heap) (e : Option Nat) :
    Option String := do
  let r ← h.deref e
  if r.Anno = "" then pure (toStringCase r.Kind) else pure r.Anno

/-- The call `err.Error()` on an interface value, dispatched on the dynamic type. -/
def GoError.Error (toStringCase : String → String) (h : Heap) (err : GoError) :
    Option String :=
  match err with
  | GoError.nil => none
  | GoError.record e => Tracer.Error.Error toStringCase h e
  | GoError.other o => some o.msg

/-- The function `Cause` of `cause_mask.go`. -/
def Cause (h : Heap) (err : GoError) : Option GoError :=
  match err with
  | GoError.nil => some GoError.nil
  | GoError.record e => do
    let r ← h.deref e
    if r.Wrpd ≠ GoError.nil then pure r.Wrpd else pure err
  | GoError.other _ => some err

/-- The function `mask` of `cause_mask.go`; `file` and `line` are what
`runtime.Caller(2)` returns at this call. -/
def mask (file : String) (line : Int) (h : Heap) (err : GoError) :
    Option (Heap × GoError) := do
  -- e, ok := err.(*Error); if !ok { e = &Error{Anno: err.Error()} }; if ok { e = e.Copy() }
  let (h1, e, ok) ← (match err with
    | GoError.record p => do
      let (hc, c) ← Error.Copy h p
      pure (hc, c, true)
    | GoError.other o =>
      let (ha, a) := h.alloc { Anno := o.msg }
      pure (ha, a, false)
    | GoError.nil => none : Option (Heap × Option Nat × Bool))
  -- if !ok || (ok && e.Wrpd == nil) { e.Type = fmt.Sprintf("%T", err); e.Wrpd = err }
  let r1 ← h1.deref e
  let h2 ← (if !ok || (ok && decide (r1.Wrpd = GoError.nil)) then do
      let ht ← h1.update e (fun r => { r with Typ := typeName err })
      ht.update e (fun r => { r with Wrpd := err })
    else pure h1)
  -- if e.Stck != "" { e.Stck += "," }
  let r2 ← h2.deref e
  let h3 ← (if r2.Stck ≠ "" then h2.update e (fun r => { r with Stck := r.Stck ++ "," })
    else pure h2)
  -- e.Stck += fmt.Sprintf("%s:%d", file, line)
  let h4 ← h3.update e (fun r => { r with Stck := r.Stck ++ frameOf file line })
  pure (h4, GoError.record e)

/-- The function `Mask` of `cause_mask.go`. -/
def Mask (file : String) (line : Int) (h : Heap) (err : GoError) :
    Option (Heap × GoError) :=
  if err = GoError.nil then some (h, GoError.nil) else mask file line h err

/-- An argument of a formatting call. -/
inductive Arg where
  | str (s : String)
  | int (i : Int)
  | err (e : GoError)
deriving DecidableEq, Repr

/-- The function `Maskf` of `cause_mask.go`; `sprintf` is `fmt.Sprintf`. -/
def Maskf (sprintf : String → List Arg → String) (file : String) (line : Int)
    (h : Heap) (e : Option Nat) (f : String) (v : List Arg) : Option (Heap × GoError) := do
  -- err := mask(e)
  let (h1, err) ← mask file line h (GoError.record e)
  -- e = err.(*Error)
  let e1 ← (match err with
    | GoError.record p => some p
    | _ => none : Option (Option Nat))
  -- e.Anno = fmt.Sprintf(f, v...)
  let h2 ← h1.update e1 (fun r => { r with Anno := sprintf f v })
  pure (h2, GoError.record e1)

/-- Successive `Mask` calls, `err = Mask(err)`, one per caller location in `locs`. -/
def MaskN (locs : List (String × Int)) (h : Heap) (err : GoError) :
    Option (Heap × GoError) :=
  match locs with
  | [] => some (h, err)
  | (file, line) :: rest => do
    let (h1, e1) ← Mask file line h err
    MaskN rest h1 e1

/-- The call `strings.Split(s, sep)` for a separator of one character. -/
def Split (s : String) (sep : Char) : List String :=
  (s.data.splitOn sep).map String.mk

/-- The frames accumulated in a stack string: none for the empty string, otherwise the
parts between the separators `","`. -/
def frames (stck : String) : List String :=
  if stck = "" then [] else Split stck ','

/-- The record `mask` leaves at the fresh address when it starts from the record `r`
(the copy of a record, or the record built for a non-record error), in one step. -/
def maskedRecord (err : GoError) (r : Error) (frame : String) : Error :=
  { r with
    Typ := if r.Wrpd = GoError.nil then typeName err else r.Typ
    Wrpd := if r.Wrpd = GoError.nil then err else r.Wrpd
    Stck := (if r.Stck ≠ "" then r.Stck ++ "," else r.Stck) ++ frame }

/-- The stack string after successive mask operations at the caller locations `locs`. -/
def stackAfter (stck : String) (locs : List (String × Int)) : String :=
  locs.foldl (fun s loc => (if s ≠ "" then s ++ "," else s) ++ frameOf loc.1 loc.2) stck

/-- An error that no mask operation has wrapped yet: a non-record error, or an allocated
record whose `Wrpd` is nil. -/
def NeverWrapped (h : Heap) (e : GoError) : Prop :=
  match e with
  | GoError.nil => False
  | GoError.record none => False
  | GoError.record (some p) => ∃ r, h[p]? = some r ∧ r.Wrpd = GoError.nil
  | GoError.other _ => True

/-- A heap with a chain of three records: record 2 wraps record 1, which wraps record 0. -/
def chainHeap : Heap :=
  [{ Kind := "inner" }, { Kind := "middle", Wrpd := GoError.record (some 0) },
   { Kind := "outer", Wrpd := GoError.record (some 1) }]

/-- A heap holding the result of `Mask(fmt.Errorf("test error one"))`. -/
def wrappedHeap : Heap :=
  [{ Anno := "test error one", Stck := "main.go:3", Typ := "*errors.errorString",
     Wrpd := GoError.other ⟨"*errors.errorString", 0, "test error one", true⟩ }]

/-- Modelled from the spec: `toStringCase`, the rendering of a kind that `Error()` falls
back to, is not among the sources. The spec leaves the transformation open;
`error_test.go` expects `test error two` for the kind `testErrorTwo`, and this rendering
puts a blank before every upper-case letter and lowers it. The theorems below take the
rendering as a parameter; this one is used only where a concrete one is needed. -/
def toStringCase (kind : String) : String :=
  String.mk (kind.data.flatMap fun c => if c.isUpper then [' ', c.toLower] else [c])

/-- A formatting function that agrees with `fmt.Sprintf` on a format without verbs and no
arguments: it returns the format. -/
def plainSprintf (f : String) (_ : List Arg) : String := f

/-- The message `Maskf(e, f, v...).Error()`. -/
def maskfMessage (toStringCase : String → String) (sprintf : String → List Arg → String)
    (file : String) (line : Int) (h : Heap) (p : Nat) (f : String) (v : List Arg) :
    Option String := do
  let (h1, m) ← Maskf sprintf file line h (some p) f v
  GoError.Error toStringCase h1 m

/-- A non-nil error the code can be handed: a non-record error, or a pointer to an
allocated record. -/
def Allocated (h : Heap) (e : GoError) : Prop :=
  match e with
  | GoError.nil => False
  | GoError.record none => False
  | GoError.record (some p) => ∃ r, h[p]? = some r
  | GoError.other _ => True

/-- The stack string of an error: the `Stck` of an allocated record, nothing otherwise. -/
def stackOf (h : Heap) (e : GoError) : String :=
  match e with
  | GoError.record (some p) =>
    match h[p]? with
    | some r => r.Stck
    | none => ""
  | _ => ""

/-- The call `strings.HasSuffix(s, suffix)`. -/
def HasSuffix (s suffix : String) : Bool :=
  suffix.data.isSuffixOf s.data

/-- The digit `lowerhex[n & 0xF]` of Go's `strconv`. -/
def lowerhex (n : Nat) : Char :=
  Nat.digitChar (n % 16)

/-- What `strconv.Quote` appends for one rune (`appendEscapedRune` with the quote `"`,
`ASCIIonly` and `graphicOnly` off); `isPrint` is `strconv.IsPrint`, whose Unicode tables
are not reproduced here. -/
def appendEscapedRune (isPrint : Char → Bool) (r : Char) : List Char :=
  if r = Char.ofNat 34 ∨ r = '\\' then ['\\', r]
  else if isPrint r then [r]
  else if r = Char.ofNat 7 then ['\\', 'a']
  else if r = Char.ofNat 8 then ['\\', 'b']
  else if r = Char.ofNat 12 then ['\\', 'f']
  else if r = Char.ofNat 10 then ['\\', 'n']
  else if r = Char.ofNat 13 then ['\\', 'r']
  else if r = Char.ofNat 9 then ['\\', 't']
  else if r = Char.ofNat 11 then ['\\', 'v']
  else if r.toNat < 32 ∨ r.toNat = 127 then
    ['\\', 'x', lowerhex (r.toNat / 16), lowerhex r.toNat]
  else if r.toNat < 65536 then
    '\\' :: 'u' :: [12, 8, 4, 0].map (fun s => lowerhex (r.toNat >>> s))
  else
    '\\' :: 'U' :: [28, 24, 20, 16, 12, 8, 4, 0].map (fun s => lowerhex (r.toNat >>> s))

/-- The function `escape` of `json.go`, that is `strconv.Quote(s)`, on a string of valid
UTF-8: a double quote, every rune as `appendEscapedRune` writes it, a double quote. -/
def escape (isPrint : Char → Bool) (s : String) : String :=
  String.mk (Char.ofNat 34 :: s.data.flatMap (appendEscapedRune isPrint) ++ [Char.ofNat 34])

/-- The printable characters of `strconv.IsPrint` among ASCII, `0x20` to `0x7e`; it stands
for `strconv.IsPrint` where a concrete text, all ASCII, is evaluated. -/
def isPrintASCII (c : Char) : Bool :=
  decide (32 ≤ c.toNat) && decide (c.toNat ≤ 126)

/-- The loop of `jsonStck`: `n` is `len(frames)`, `i` the index of the next frame and `s`
the text built so far; the index expressions `c[0]` and `c[1]` fault when out of range. -/
def jsonStckLoop (n : Nat) : Nat → List String → String → Option String
  | _, [], s => some s
  | i, f :: rest, s => do
    let c := Split f ':'
    let c0 ← c.get? 0
    let c1 ← c.get? 1
    let s1 := s ++ "\"" ++ c0 ++ ":" ++ c1 ++ "\""
    jsonStckLoop n (i + 1) rest (if i + 1 < n then s1 ++ ", " else s1)

/-- The function `jsonStck` of `json.go`. -/
def jsonStck (stck : String) : Option String :=
  if stck = "" then some "\"\""
  else
    let frames := Split stck ','
    (jsonStckLoop frames.length 0 frames "[").map (fun s => s ++ "]")

/-- One of the five guarded blocks of `jsonError`: a comma unless the text ends with the
opening brace, then the quoted key, a colon and the value. -/
def appendEntry (s key val : String) : String :=
  (if !HasSuffix s "\x7b" then s ++ "," else s) ++ "\"" ++ key ++ "\"" ++ ":" ++ val

/-- The function `jsonError` of `json.go`, reading the record through the pointer `e`. -/
def jsonError (isPrint : Char → Bool) (h : Heap) (e : Option Nat) : Option String := do
  let r ← h.deref e
  let s0 := "" ++ "\x7b"
  let s1 := if r.Anno ≠ "" then s0 ++ "\"" ++ "anno" ++ "\"" ++ ":" ++ escape isPrint r.Anno
    else s0
  let s2 := if r.Desc ≠ "" then appendEntry s1 "desc" (escape isPrint r.Desc) else s1
  let s3 := if r.Docs ≠ "" then appendEntry s2 "docs" (escape isPrint r.Docs) else s2
  let s4 := if r.Kind ≠ "" then appendEntry s3 "kind" (escape isPrint r.Kind) else s3
  let s5 ← (if r.Stck ≠ "" then do
      let st ← jsonStck r.Stck
      pure (appendEntry s4 "stck" st)
    else pure s4)
  let s6 := if r.Typ ≠ "" then appendEntry s5 "type" (escape isPrint r.Typ) else s5
  pure (s6 ++ "\x7d")

/-- The function `mustJSONMarshal` of `json.go` on a `*Error`. The standard library's
`json.Marshal` writes `null` for a nil pointer and otherwise calls `MarshalJSON`, that is
`jsonError`, and passes the result through `compact`, its own validation and compaction,
taken as a parameter; an error of `compact` makes `mustJSONMarshal` fault. -/
def mustJSONMarshal (compact : String → Option String) (isPrint : Char → Bool) (h : Heap)
    (e : Option Nat) : Option String :=
  match e with
  | none => some "null"
  | some a => (jsonError isPrint h (some a)).bind compact

/-- The function `JSON` of `json.go`. -/
def JSON (compact : String → Option String) (isPrint : Char → Bool) (h : Heap)
    (err : GoError) : Option String :=
  match err with
  | GoError.nil => some "\x7b\x7d"
  | GoError.record e => mustJSONMarshal compact isPrint h e
  | GoError.other o =>
    let (h1, e) := h.alloc { Anno := o.msg, Typ := typeName err }
    mustJSONMarshal compact isPrint h1 e

/-- The texts `parts` joined by the separator `sep`. -/
def joinWith (sep : String) : List String → String
  | [] => ""
  | [a] => a
  | a :: b :: rest => a ++ sep ++ joinWith sep (b :: rest)

/-- One entry of the serialized object: the quoted key, a colon and the value. -/
def entry (key val : String) : String :=
  "\"" ++ key ++ "\":" ++ val

/-- The entries of the non-empty fields of a record, in the order anno, desc, docs, kind,
stck, type; `st` is the rendered stack. -/
def entriesOf (isPrint : Char → Bool) (r : Error) (st : String) : List String :=
  (if r.Anno ≠ "" then [entry "anno" (escape isPrint r.Anno)] else []) ++
  (if r.Desc ≠ "" then [entry "desc" (escape isPrint r.Desc)] else []) ++
  (if r.Docs ≠ "" then [entry "docs" (escape isPrint r.Docs)] else []) ++
  (if r.Kind ≠ "" then [entry "kind" (escape isPrint r.Kind)] else []) ++
  (if r.Stck ≠ "" then [entry "stck" st] else []) ++
  (if r.Typ ≠ "" then [entry "type" (escape isPrint r.Typ)] else [])

/-- The text `jsonError` builds for the record `r` once its stack has rendered as `st`. -/
def jsonErrorText (isPrint : Char → Bool) (r : Error) (st : String) : String :=
  let s0 := "" ++ "\x7b"
  let s1 := if r.Anno ≠ "" then s0 ++ "\"" ++ "anno" ++ "\"" ++ ":" ++ escape isPrint r.Anno
    else s0
  let s2 := if r.Desc ≠ "" then appendEntry s1 "desc" (escape isPrint r.Desc) else s1
  let s3 := if r.Docs ≠ "" then appendEntry s2 "docs" (escape isPrint r.Docs) else s2
  let s4 := if r.Kind ≠ "" then appendEntry s3 "kind" (escape isPrint r.Kind) else s3
  let s5 := if r.Stck ≠ "" then appendEntry s4 "stck" st else s4
  let s6 := if r.Typ ≠ "" then appendEntry s5 "type" (escape isPrint r.Typ) else s5
  s6 ++ "\x7d"

/-- A frame between double quotes, as `jsonStck` writes it. -/
def quoted (f : String) : String :=
  "\"" ++ f ++ "\""

/-- One masking call of a caller: `err = Mask(err)`, or `err = Maskf(err.(*Error), f, v...)`. -/
inductive Op where
  | mask (file : String) (line : Int)
  | maskf (file : String) (line : Int) (f : String) (v : List Arg)
deriving DecidableEq, Repr

/-- The caller location of a masking call. -/
def Op.loc (op : Op) : String × Int :=
  match op with
  | Op.mask file line => (file, line)
  | Op.maskf file line _ _ => (file, line)

/-- One masking call; `Maskf` takes a `*Error`, so it applies to a record pointer only (the
assertion `err.(*Error)` of the caller fails on anything else). -/
def applyOp (sprintf : String → List Arg → String) (op : Op) (h : Heap) (err : GoError) :
    Option (Heap × GoError) :=
  match op with
  | Op.mask file line => Mask file line h err
  | Op.maskf file line f v =>
    match err with
    | GoError.record e => Maskf sprintf file line h e f v
    | _ => none

/-- Successive masking calls, each applied to the result of the one before. -/
def applyOps (sprintf : String → List Arg → String) (ops : List Op) (h : Heap)
    (err : GoError) : Option (Heap × GoError) :=
  match ops with
  | [] => some (h, err)
  | op :: rest => do
    let (h1, e1) ← applyOp sprintf op h err
    applyOps sprintf rest h1 e1

/-- A sequence of masking calls the type checker accepts from `e`: `Maskf` cannot be the
first call on a non-record error. -/
def Applicable (e : GoError) (ops : List Op) : Prop :=
  match e, ops with
  | GoError.other _, Op.maskf _ _ _ _ :: _ => False
  | _, _ => True

/-- The value of a hexadecimal digit. -/
def hexVal (c : Char) : Option Nat :=
  if '0' ≤ c ∧ c ≤ '9' then some (c.toNat - 48)
  else if 'a' ≤ c ∧ c ≤ 'f' then some (c.toNat - 87)
  else if 'A' ≤ c ∧ c ≤ 'F' then some (c.toNat - 55)
  else none

/-- The characters a JSON string literal stands for, read after its opening quote
(RFC 8259): unescaped characters from `0x20` on, the two-character escapes
`\" \\ \/ \b \f \n \r \t`, and `\uXXXX` for a character of the basic plane; the literal
ends at the closing quote. A `\u` escape in the surrogate range is rejected here. -/
def jsonChars : List Char → Option (List Char)
  | [] => none
  | c :: rest =>
    if c = Char.ofNat 34 then (if rest = [] then some [] else none)
    else if c = '\\' then
      match rest with
      | [] => none
      | e :: rest2 =>
        if e = Char.ofNat 34 ∨ e = '\\' ∨ e = '/' then (jsonChars rest2).map (e :: ·)
        else if e = 'b' then (jsonChars rest2).map (Char.ofNat 8 :: ·)
        else if e = 'f' then (jsonChars rest2).map (Char.ofNat 12 :: ·)
        else if e = 'n' then (jsonChars rest2).map (Char.ofNat 10 :: ·)
        else if e = 'r' then (jsonChars rest2).map (Char.ofNat 13 :: ·)
        else if e = 't' then (jsonChars rest2).map (Char.ofNat 9 :: ·)
        else if e = 'u' then
          match rest2 with
          | a :: b :: c2 :: d :: rest3 =>
            match hexVal a, hexVal b, hexVal c2, hexVal d with
            | some x, some y, some z, some w =>
              let n := ((x * 16 + y) * 16 + z) * 16 + w
              if 55296 ≤ n ∧ n ≤ 57343 then none
              else (jsonChars rest3).map (Char.ofNat n :: ·)
            | _, _, _, _ => none
          | _ => none
        else none
    else if c.toNat < 32 then none
    else (jsonChars rest).map (c :: ·)

/-- The string a text stands for when it is read as a JSON string literal; `none` when
the text is not one. -/
def jsonStringValue (lit : String) : Option String :=
  match lit.data with
  | [] => none
  | c :: rest => if c = Char.ofNat 34 then (jsonChars rest).map String.mk else none

/-- A character that stands for itself in a JSON string literal: not the double quote, not
the backslash and not a control character. -/
def jsonPlain (c : Char) : Bool :=
  decide (c ≠ Char.ofNat 34) && decide (c ≠ '\\') && decide (32 ≤ c.toNat)

/-- The composition `JSON(Mask(err))` of `Test_Tracer_JSON`. -/
def maskJSON (compact : String → Option String) (isPrint : Char → Bool) (file : String)
    (line : Int) (h : Heap) (err : GoError) : Option String := do
  let (h1, m) ← Mask file line h err
  JSON compact isPrint h1 m

/-- The stack string of the result of a sequence of masking calls. -/
def opsStack (sprintf : String → List Arg → String) (ops : List Op) (h : Heap)
    (err : GoError) : Option String :=
  (applyOps sprintf ops h err).map (fun res => stackOf res.1 res.2)

/-- A character that the compaction of `json.Marshal` rewrites inside a string: `<`, `>`,
`&`, `U+2028` and `U+2029`. -/
def htmlRewritten (c : Char) : Bool :=
  c == '<' || c == '>' || c == '&' || c.toNat == 8232 || c.toNat == 8233

/-- A character that `strconv.Quote` writes the way a JSON string literal reads it back,
and that the compaction of `json.Marshal` leaves alone: the double quote, the backslash,
a printable plain character, or one of the control characters `\b \f \n \r \t`. -/
def quoteSafe (isPrint : Char → Bool) (c : Char) : Bool :=
  !htmlRewritten c &&
  (c == Char.ofNat 34 || c == '\\' || (isPrint c && jsonPlain c) ||
    (!isPrint c && (c == Char.ofNat 8 || c == Char.ofNat 12 || c == Char.ofNat 10 ||
      c == Char.ofNat 13 || c == Char.ofNat 9)))

/-! ## The heap -/

theorem Heap.getElem?_alloc_new (h : Heap) (r : Error) : (h ++ [r])[h.length]? = some r := by
  simp

theorem Heap.getElem?_alloc_old (h : Heap) (r x : Error) (q : Nat) (hq : h[q]? = some x) :
    (h ++ [r])[q]? = some x := by
  have hlt : q < h.length := (List.getElem?_eq_some_iff.mp hq).1
  rw [List.getElem?_append_left hlt]
  exact hq

theorem Heap.set_alloc_new (h : Heap) (r x : Error) :
    (h ++ [r]).set h.length x = h ++ [x] := by
  simp

/-! ## What `mask` computes -/

theorem mask_record_eq (file : String) (line : Int) (h : Heap) (p : Nat) (r : Error)
    (hp : h[p]? = some r) :
    mask file line h (GoError.record (some p)) =
      some (h ++ [maskedRecord (GoError.record (some p)) r (frameOf file line)],
        GoError.record (some h.length)) := by
  obtain ⟨a, d, o, k, s, t, w⟩ := r
  by_cases hw : w = GoError.nil <;> by_cases hs : s = "" <;>
    simp [mask, Error.Copy, Heap.deref, Heap.alloc, Heap.update, maskedRecord, hp, hw, hs,
      typeName]

theorem mask_other_eq (file : String) (line : Int) (h : Heap) (o : Foreign) :
    mask file line h (GoError.other o) =
      some (h ++ [maskedRecord (GoError.other o) { Anno := o.msg } (frameOf file line)],
        GoError.record (some h.length)) := by
  simp [mask, Heap.deref, Heap.alloc, Heap.update, maskedRecord, typeName]

theorem Mask_record_eq (file : String) (line : Int) (h : Heap) (p : Nat) (r : Error)
    (hp : h[p]? = some r) :
    Mask file line h (GoError.record (some p)) =
      some (h ++ [maskedRecord (GoError.record (some p)) r (frameOf file line)],
        GoError.record (some h.length)) := by
  simp [Mask, mask_record_eq file line h p r hp]

theorem Mask_other_eq (file : String) (line : Int) (h : Heap) (o : Foreign) :
    Mask file line h (GoError.other o) =
      some (h ++ [maskedRecord (GoError.other o) { Anno := o.msg } (frameOf file line)],
        GoError.record (some h.length)) := by
  simp [Mask, mask_other_eq file line h o]

theorem Maskf_record_eq (sprintf : String → List Arg → String) (file : String) (line : Int)
    (h : Heap) (p : Nat) (r : Error) (f : String) (v : List Arg) (hp : h[p]? = some r) :
    Maskf sprintf file line h (some p) f v =
      some (h ++ [{ maskedRecord (GoError.record (some p)) r (frameOf file line) with
                    Anno := sprintf f v }],
        GoError.record (some h.length)) := by
  simp [Maskf, mask_record_eq file line h p r hp, Heap.update]

/-- Successive masks of an allocated record: the result is a fresh record, the heap only
grows, and each field of the result is determined by the field of the record started
from. -/
theorem MaskN_record (locs : List (String × Int)) :
    ∀ (h : Heap) (p : Nat) (r : Error), h[p]? = some r →
      ∃ h' a r', MaskN locs h (GoError.record (some p)) = some (h', GoError.record (some a)) ∧
        h'[a]? = some r' ∧
        (∀ (q : Nat) (x : Error), h[q]? = some x → h'[q]? = some x) ∧
        r'.Anno = r.Anno ∧ r'.Desc = r.Desc ∧ r'.Docs = r.Docs ∧ r'.Kind = r.Kind ∧
        (r.Wrpd ≠ GoError.nil → r'.Wrpd = r.Wrpd ∧ r'.Typ = r.Typ) ∧
        (r.Wrpd = GoError.nil → locs ≠ [] → r'.Wrpd = GoError.record (some p)) ∧
        r'.Stck = stackAfter r.Stck locs := by
  induction locs with
  | nil =>
    intro h p r hp
    exact ⟨h, p, r, rfl, hp, fun _ _ hq => hq, rfl, rfl, rfl, rfl, fun _ => ⟨rfl, rfl⟩,
      fun _ hne => absurd rfl hne, rfl⟩
  | cons loc rest ih =>
    intro h p r hp
    obtain ⟨file, line⟩ := loc
    have hnew := Heap.getElem?_alloc_new h
      (maskedRecord (GoError.record (some p)) r (frameOf file line))
    obtain ⟨h', a, r', hrun, ha, hold, hA, hD, hO, hK, hW, _, hS⟩ := ih _ _ _ hnew
    refine ⟨h', a, r', ?_, ha, ?_, ?_, ?_, ?_, ?_, ?_, ?_, ?_⟩
    · simp [MaskN, Mask_record_eq file line h p r hp, hrun]
    · intro q x hq
      exact hold q x (Heap.getElem?_alloc_old h _ x q hq)
    · simpa [maskedRecord] using hA
    · simpa [maskedRecord] using hD
    · simpa [maskedRecord] using hO
    · simpa [maskedRecord] using hK
    · intro hne
      have := hW (by simp [maskedRecord, hne])
      simpa [maskedRecord, hne] using this
    · intro hnil _
      have := hW (by simp [maskedRecord, hnil])
      simpa [maskedRecord, hnil] using this.1
    · simpa [maskedRecord, stackAfter] using hS

/-! ## What `Cause` computes -/

theorem Cause_record_wrapped (h : Heap) (a : Nat) (r : Error) (ha : h[a]? = some r)
    (hw : r.Wrpd ≠ GoError.nil) : Cause h (GoError.record (some a)) = some r.Wrpd := by
  simp [Cause, Heap.deref, ha, hw]

theorem Cause_record_unwrapped (h : Heap) (a : Nat) (r : Error) (ha : h[a]? = some r)
    (hw : r.Wrpd = GoError.nil) :
    Cause h (GoError.record (some a)) = some (GoError.record (some a)) := by
  simp [Cause, Heap.deref, ha, hw]

theorem Cause_of_grown (h h' : Heap)
    (hold : ∀ (q : Nat) (x : Error), h[q]? = some x → h'[q]? = some x)
    (e c : GoError) (hc : Cause h e = some c) : Cause h' e = some c := by
  cases e with
  | nil => simpa [Cause] using hc
  | other o => simpa [Cause] using hc
  | record p =>
    cases p with
    | none => simp [Cause, Heap.deref] at hc
    | some a =>
      cases hr : h[a]? with
      | none => simp [Cause, Heap.deref, hr] at hc
      | some r =>
        have hr' := hold a r hr
        simpa [Cause, Heap.deref, hr, hr'] using hc

/-! ## Comparing interface values -/

/-- C1: for an error `e` that was never wrapped (a non-record error or an allocated record
with nil `Wrpd`) and `n ≥ 1` successive `Mask` calls, the calls succeed, the result is a
record whose `Wrpd` is `e`, and `Cause` of the result is `e` itself, the same reference. -/
theorem cause_of_masked_is_original (locs : List (String × Int)) (h : Heap) (e : GoError)
    (hn : 1 ≤ locs.length) (hun : NeverWrapped h e) :
    ∃ h' a r', MaskN locs h e = some (h', GoError.record (some a)) ∧
      h'[a]? = some r' ∧ r'.Wrpd = e ∧ Cause h' (GoError.record (some a)) = some e := by
  cases e with
  | nil => exact absurd hun (by simp [NeverWrapped])
  | other o =>
    cases locs with
    | nil => simp at hn
    | cons loc rest =>
      obtain ⟨file, line⟩ := loc
      have hnew := Heap.getElem?_alloc_new h
        (maskedRecord (GoError.other o) { Anno := o.msg } (frameOf file line))
      obtain ⟨h', a, r', hrun, ha, _, _, _, _, _, hW, _, _⟩ := MaskN_record rest _ _ _ hnew
      have hw : r'.Wrpd = GoError.other o := by
        have := (hW (by simp [maskedRecord])).1
        simpa [maskedRecord] using this
      refine ⟨h', a, r', ?_, ha, hw, ?_⟩
      · simp [MaskN, Mask_other_eq file line h o, hrun]
      · rw [Cause_record_wrapped h' a r' ha (by simp [hw]), hw]
  | record p =>
    cases p with
    | none => exact absurd hun (by simp [NeverWrapped])
    | some p =>
      obtain ⟨r, hp, hnil⟩ := hun
      obtain ⟨h', a, r', hrun, ha, _, _, _, _, _, _, hW, _⟩ := MaskN_record locs h p r hp
      have hw : r'.Wrpd = GoError.record (some p) :=
        hW hnil (by intro hl; simp [hl] at hn)
      refine ⟨h', a, r', hrun, ha, hw, ?_⟩
      rw [Cause_record_wrapped h' a r' ha (by simp [hw]), hw]

theorem cause_of_masked_is_original_witness :
    1 ≤ [("a.go", (1 : Int)), ("b.go", (22 : Int))].length ∧
    NeverWrapped [{ Kind := "testErrorTwo" }] (GoError.record (some 0)) ∧
    ∃ h' a r', MaskN [("a.go", (1 : Int)), ("b.go", (22 : Int))] [{ Kind := "testErrorTwo" }]
        (GoError.record (some 0)) = some (h', GoError.record (some a)) ∧
      h'[a]? = some r' ∧ r'.Wrpd = GoError.record (some 0) ∧
      Cause h' (GoError.record (some a)) = some (GoError.record (some 0)) :=
  ⟨by decide, ⟨_, rfl, rfl⟩,
    cause_of_masked_is_original _ _ _ (by decide) ⟨_, rfl, rfl⟩⟩

/-- C3: `Mask` and `Maskf` do not mutate the record they are given. For every allocated
record `r` at address `p`, both calls succeed and return a record at a fresh address
(different from `p`); afterwards `p` still holds `r` with all seven fields unchanged, as
does every other record allocated before the call; the cause of the result of `Maskf` is
the cause `r` had before the call, and when `r` was never wrapped that cause is `r` itself,
which still carries its old annotation and not the new one. -/
theorem mask_leaves_record_unchanged (sprintf : String → List Arg → String)
    (file : String) (line : Int) (h : Heap) (p : Nat) (r : Error) (f : String)
    (v : List Arg) (hp : h[p]? = some r) :
    (∃ h' a, Mask file line h (GoError.record (some p)) = some (h', GoError.record (some a)) ∧
      a ≠ p ∧ h'[p]? = some r ∧
      (∀ (q : Nat) (x : Error), h[q]? = some x → h'[q]? = some x)) ∧
    (∃ h' a, Maskf sprintf file line h (some p) f v = some (h', GoError.record (some a)) ∧
      a ≠ p ∧ h'[p]? = some r ∧
      (∀ (q : Nat) (x : Error), h[q]? = some x → h'[q]? = some x) ∧
      Cause h' (GoError.record (some a)) = Cause h (GoError.record (some p)) ∧
      (r.Wrpd = GoError.nil →
        Cause h' (GoError.record (some a)) = some (GoError.record (some p)) ∧
        (h'[p]?).map Error.Anno = some r.Anno)) := by
  have hlt : p < h.length := (List.getElem?_eq_some_iff.mp hp).1
  refine ⟨⟨_, _, Mask_record_eq file line h p r hp, Nat.ne_of_gt hlt,
    Heap.getElem?_alloc_old h _ r p hp, fun q x hq => Heap.getElem?_alloc_old h _ x q hq⟩,
    ⟨_, _, Maskf_record_eq sprintf file line h p r f v hp, Nat.ne_of_gt hlt,
    Heap.getElem?_alloc_old h _ r p hp, fun q x hq => Heap.getElem?_alloc_old h _ x q hq,
    ?_, ?_⟩⟩
  · by_cases hw : r.Wrpd = GoError.nil
    · rw [Cause_record_unwrapped h p r hp hw,
        Cause_record_wrapped _ _ _ (Heap.getElem?_alloc_new h _) (by simp [maskedRecord, hw])]
      simp [maskedRecord, hw]
    · rw [Cause_record_wrapped h p r hp hw,
        Cause_record_wrapped _ _ _ (Heap.getElem?_alloc_new h _) (by simp [maskedRecord, hw])]
      simp [maskedRecord, hw]
  · intro hw
    constructor
    · rw [Cause_record_wrapped _ _ _ (Heap.getElem?_alloc_new h _) (by simp [maskedRecord, hw])]
      simp [maskedRecord, hw]
    · rw [Heap.getElem?_alloc_old h _ r p hp]
      rfl

theorem mask_leaves_record_unchanged_witness :
    ([{ Anno := "old", Kind := "testErrorTwo" }] : Heap)[0]? =
      some { Anno := "old", Kind := "testErrorTwo" } ∧
    ∃ h' a, Maskf (fun f _ => f) "main.go" 9 [{ Anno := "old", Kind := "testErrorTwo" }]
        (some 0) "annotation" [] = some (h', GoError.record (some a)) ∧
      a ≠ 0 ∧ h'[0]? = some { Anno := "old", Kind := "testErrorTwo" } :=
  ⟨rfl,
    let ⟨h', a, hrun, hne, hsame, _⟩ :=
      (mask_leaves_record_unchanged (fun f _ => f) "main.go" 9
        [{ Anno := "old", Kind := "testErrorTwo" }] 0
        { Anno := "old", Kind := "testErrorTwo" } "annotation" [] rfl).2
    ⟨h', a, hrun, hne, hsame⟩⟩

/-! ## Equality is identity of causes -/

/-- C6, as stated, fails: when the formatted string is empty, `Error()` of the result of
`Maskf` is not that string but the rendering of the record's kind. -/
theorem maskfMessage_empty_format :
    plainSprintf "" [] = "" ∧
    maskfMessage toStringCase plainSprintf "main.go" 9 [{ Kind := "testErrorTwo" }] 0 "" [] =
      some "test error two" := by
  decide

/-- C6, amended: for every allocated record `r` (wrapped or not, annotated or not), every
format and arguments, `Maskf` succeeds; `Error()` of its result is the newly formatted
string whenever that string is not empty, overwriting any earlier annotation, and is the
rendering of `r`'s kind when the formatted string is empty; the cause of the result is the
cause of `r`, which is `r` itself when `r` was never wrapped. -/
theorem Maskf_message_and_cause (toStringCase : String → String)
    (sprintf : String → List Arg → String) (file : String) (line : Int) (h : Heap) (p : Nat)
    (r : Error) (f : String) (v : List Arg) (hp : h[p]? = some r) :
    ∃ h' a, Maskf sprintf file line h (some p) f v = some (h', GoError.record (some a)) ∧
      Error.Error toStringCase h' (some a) =
        some (if sprintf f v = "" then toStringCase r.Kind else sprintf f v) ∧
      maskfMessage toStringCase sprintf file line h p f v =
        some (if sprintf f v = "" then toStringCase r.Kind else sprintf f v) ∧
      Cause h' (GoError.record (some a)) = Cause h (GoError.record (some p)) ∧
      (r.Wrpd = GoError.nil →
        Cause h' (GoError.record (some a)) = some (GoError.record (some p))) := by
  have hrun := Maskf_record_eq sprintf file line h p r f v hp
  have hnew := Heap.getElem?_alloc_new h
    { maskedRecord (GoError.record (some p)) r (frameOf file line) with Anno := sprintf f v }
  have hmsg : Error.Error toStringCase
      (h ++ [{ maskedRecord (GoError.record (some p)) r (frameOf file line) with
               Anno := sprintf f v }]) (some h.length) =
      some (if sprintf f v = "" then toStringCase r.Kind else sprintf f v) := by
    by_cases hs : sprintf f v = "" <;>
      simp [Error.Error, Heap.deref, maskedRecord, hs]
  refine ⟨_, _, hrun, hmsg, ?_, ?_, ?_⟩
  · simp only [maskfMessage, hrun, Option.bind_eq_bind, Option.some_bind]
    exact hmsg
  · by_cases hw : r.Wrpd = GoError.nil
    · rw [Cause_record_unwrapped h p r hp hw,
        Cause_record_wrapped _ _ _ hnew (by simp [maskedRecord, hw])]
      simp [maskedRecord, hw]
    · rw [Cause_record_wrapped h p r hp hw,
        Cause_record_wrapped _ _ _ hnew (by simp [maskedRecord, hw])]
      simp [maskedRecord, hw]
  · intro hw
    rw [Cause_record_wrapped _ _ _ hnew (by simp [maskedRecord, hw])]
    simp [maskedRecord, hw]

theorem Maskf_message_and_cause_witness :
    ([{ Kind := "testErrorTwo" }] : Heap)[0]? = some { Kind := "testErrorTwo" } ∧
    maskfMessage toStringCase plainSprintf "main.go" 9 [{ Kind := "testErrorTwo" }] 0
      "annotation" [] = some "annotation" :=
  ⟨rfl,
    let ⟨_, _, _, _, hmsg, _⟩ :=
      Maskf_message_and_cause toStringCase plainSprintf "main.go" 9
        [{ Kind := "testErrorTwo" }] 0 { Kind := "testErrorTwo" } "annotation" [] rfl
    hmsg⟩

theorem Error_of_record (toStringCase : String → String) (h : Heap) (a : Nat) (r : Error)
    (ha : h[a]? = some r) :
    Error.Error toStringCase h (some a) =
      some (if r.Anno = "" then toStringCase r.Kind else r.Anno) := by
  by_cases hs : r.Anno = "" <;> simp [Error.Error, Heap.deref, ha, hs]

/-- Successive masks of an allocated record keep its message. -/
theorem MaskN_record_message (toStringCase : String → String) (locs : List (String × Int))
    (h : Heap) (p : Nat) (r : Error) (hp : h[p]? = some r) :
    ∃ h' m msg, MaskN locs h (GoError.record (some p)) = some (h', m) ∧
      GoError.Error toStringCase h (GoError.record (some p)) = some msg ∧
      GoError.Error toStringCase h' m = some msg := by
  obtain ⟨h', a, r', hrun, ha, _, hA, _, _, hK, _, _, _⟩ := MaskN_record locs h p r hp
  refine ⟨h', _, _, hrun, Error_of_record toStringCase h p r hp, ?_⟩
  show Error.Error toStringCase h' (some a) = _
  rw [Error_of_record toStringCase h' a r' ha, hA, hK]

/-- C7: masking preserves the message. For every non-nil error `e` (a non-record error or
an allocated record) and `n ≥ 1` successive `Mask` calls, the calls succeed and `Error()`
of the result is `e.Error()`; and the message of the result of `Maskf` is again the message
after any number of later `Mask` calls. The rendering of kinds is a parameter: for a
non-record error whose message is empty it has to render the empty kind as the empty
string. -/
theorem masked_message_preserved (toStringCase : String → String)
    (sprintf : String → List Arg → String) (locs : List (String × Int)) (h : Heap)
    (e : GoError) (hn : 1 ≤ locs.length) (hal : Allocated h e)
    (hk : ∀ o, e = GoError.other o → o.msg = "" → toStringCase "" = "") :
    (∃ h' m msg, MaskN locs h e = some (h', m) ∧
      GoError.Error toStringCase h e = some msg ∧
      GoError.Error toStringCase h' m = some msg) ∧
    (∀ (file : String) (line : Int) (p : Nat) (r : Error) (f : String) (v : List Arg),
      h[p]? = some r →
      ∃ h1 m1 h2 m2 msg, Maskf sprintf file line h (some p) f v = some (h1, m1) ∧
        MaskN locs h1 m1 = some (h2, m2) ∧
        GoError.Error toStringCase h1 m1 = some msg ∧
        GoError.Error toStringCase h2 m2 = some msg) := by
  constructor
  · cases e with
    | nil => exact absurd hal (by simp [Allocated])
    | other o =>
      cases locs with
      | nil => simp at hn
      | cons loc rest =>
        obtain ⟨file, line⟩ := loc
        have hnew := Heap.getElem?_alloc_new h
          (maskedRecord (GoError.other o) { Anno := o.msg } (frameOf file line))
        obtain ⟨h', m, msg, hrun, hmsg, hmsg'⟩ :=
          MaskN_record_message toStringCase rest _ _ _ hnew
        refine ⟨h', m, o.msg, ?_, rfl, ?_⟩
        · simp [MaskN, Mask_other_eq file line h o, hrun]
        · rw [hmsg', ← hmsg]
          show Error.Error toStringCase _ (some h.length) = _
          rw [Error_of_record toStringCase _ _ _ hnew]
          by_cases hs : o.msg = ""
          · simp [maskedRecord, hs, hk o rfl hs]
          · simp [maskedRecord, hs]
    | record p =>
      cases p with
      | none => exact absurd hal (by simp [Allocated])
      | some p =>
        obtain ⟨r, hp⟩ := hal
        exact MaskN_record_message toStringCase locs h p r hp
  · intro file line p r f v hp
    have hnew := Heap.getElem?_alloc_new h
      { maskedRecord (GoError.record (some p)) r (frameOf file line) with Anno := sprintf f v }
    obtain ⟨h2, m2, msg, hrun, hmsg, hmsg'⟩ :=
      MaskN_record_message toStringCase locs _ _ _ hnew
    exact ⟨_, _, h2, m2, msg, Maskf_record_eq sprintf file line h p r f v hp, hrun, hmsg,
      hmsg'⟩

theorem masked_message_preserved_witness :
    1 ≤ [("a.go", (1 : Int)), ("b.go", (22 : Int))].length ∧
    Allocated [] (GoError.other ⟨"*errors.errorString", 0, "test error one", true⟩) ∧
    ∃ h' m, MaskN [("a.go", (1 : Int)), ("b.go", (22 : Int))] []
        (GoError.other ⟨"*errors.errorString", 0, "test error one", true⟩) = some (h', m) ∧
      GoError.Error toStringCase h' m = some "test error one" :=
  ⟨by decide, trivial,
    let ⟨⟨h', m, msg, hrun, hmsg, hmsg'⟩, _⟩ :=
      masked_message_preserved toStringCase plainSprintf
        [("a.go", (1 : Int)), ("b.go", (22 : Int))] []
        (GoError.other ⟨"*errors.errorString", 0, "test error one", true⟩) (by decide) trivial
        (fun o ho hs => by cases ho; exact absurd hs (by decide))
    ⟨h', m, hrun, by rw [hmsg']; exact hmsg.symm ▸ rfl⟩⟩

/-! ## Strings: decimal numerals and splitting -/

theorem digitChar_isDigit (d : Nat) (hd : d < 10) : (Nat.digitChar d).isDigit = true := by
  interval_cases d <;> decide

theorem toDigitsCore_isDigit (fuel : Nat) :
    ∀ (n : Nat) (ds : List Char), (∀ c ∈ ds, c.isDigit = true) →
      ∀ c ∈ Nat.toDigitsCore 10 fuel n ds, c.isDigit = true := by
  induction fuel with
  | zero =>
    intro n ds hds c hc
    exact hds c (by simpa [Nat.toDigitsCore] using hc)
  | succ fuel ih =>
    intro n ds hds c hc
    have hd : (Nat.digitChar (n % 10)).isDigit = true :=
      digitChar_isDigit _ (Nat.mod_lt _ (by decide))
    have hcons : ∀ x ∈ Nat.digitChar (n % 10) :: ds, x.isDigit = true := by
      intro x hx
      rcases List.mem_cons.mp hx with hx | hx
      · rw [hx]; exact hd
      · exact hds x hx
    unfold Nat.toDigitsCore at hc
    by_cases hz : n / 10 = 0
    · simp only [hz, if_true] at hc
      exact hcons c hc
    · simp only [hz, if_false] at hc
      exact ih _ _ hcons c hc

theorem Nat_repr_isDigit (n : Nat) : ∀ c ∈ (Nat.repr n).data, c.isDigit = true := by
  intro c hc
  exact toDigitsCore_isDigit _ n [] (by simp) c (by simpa [Nat.repr, Nat.toDigits] using hc)

/-- The decimal numeral `%d` prints consists of digits and, in front, a minus sign at most. -/
theorem toString_int_chars (i : Int) :
    ∀ c ∈ (toString i).data, c = '-' ∨ c.isDigit = true := by
  intro c hc
  cases i with
  | ofNat m => exact Or.inr (Nat_repr_isDigit m c hc)
  | negSucc m =>
    have hc' : c ∈ ("-" ++ Nat.repr (m + 1)).data := hc
    rw [String.data_append] at hc'
    rcases List.mem_append.mp hc' with h1 | h1
    · left; simpa using h1
    · exact Or.inr (Nat_repr_isDigit _ c h1)

theorem frameOf_data (file : String) (line : Int) :
    (frameOf file line).data = file.data ++ ':' :: (toString line).data := by
  simp [frameOf, String.data_append]

theorem frameOf_ne_empty (file : String) (line : Int) : frameOf file line ≠ "" := by
  intro hf
  have := congrArg String.data hf
  rw [frameOf_data] at this
  simp at this

theorem frameOf_no_comma (file : String) (line : Int) (hfile : ',' ∉ file.data) :
    ',' ∉ (frameOf file line).data := by
  rw [frameOf_data]
  intro hmem
  rcases List.mem_append.mp hmem with h1 | h1
  · exact hfile h1
  · rcases List.mem_cons.mp h1 with h2 | h2
    · exact absurd h2 (by decide)
    · rcases toString_int_chars line _ h2 with h3 | h3
      · exact absurd h3 (by decide)
      · exact absurd h3 (by decide)

theorem splitOn_append_sep (sep : Char) (f : List Char) (hf : sep ∉ f) :
    ∀ s : List Char, (s ++ sep :: f).splitOn sep = s.splitOn sep ++ [f] := by
  have hsingle : f.splitOn sep = [f] :=
    List.splitOnP_eq_single (· == sep) f (by
      intro x hx hp
      have : x = sep := by simpa using hp
      exact hf (this ▸ hx))
  intro s
  induction s with
  | nil =>
    show List.splitOnP _ (sep :: f) = List.splitOnP _ [] ++ [f]
    rw [List.splitOnP_cons, List.splitOnP_nil]
    simp only [beq_self_eq_true, if_true]
    exact congrArg _ hsingle
  | cons x s ih =>
    have ih' : List.splitOnP (· == sep) (s ++ sep :: f) =
        List.splitOnP (· == sep) s ++ [f] := ih
    show List.splitOnP _ (x :: (s ++ sep :: f)) = List.splitOnP _ (x :: s) ++ [f]
    rw [List.splitOnP_cons, List.splitOnP_cons, ih']
    by_cases hx : (x == sep) = true
    · simp [hx]
    · simp only [hx, if_false]
      cases hsp : List.splitOnP (· == sep) s with
      | nil => exact absurd hsp (List.splitOnP_ne_nil _ _)
      | cons y ys => rfl

theorem Split_append_sep (s f : String) (hf : ',' ∉ f.data) :
    Split (s ++ "," ++ f) ',' = Split s ',' ++ [f] := by
  have hd : (s ++ "," ++ f).data = s.data ++ ',' :: f.data := by
    simp [String.data_append]
  simp [Split, hd, splitOn_append_sep ',' f.data hf s.data]

theorem Split_single (f : String) (hf : ',' ∉ f.data) : Split f ',' = [f] := by
  have hsingle : f.data.splitOn ',' = [f.data] :=
    List.splitOnP_eq_single (· == ',') f.data (by
      intro x hx hp
      have : x = ',' := by simpa using hp
      exact hf (this ▸ hx))
  simp [Split, hsingle]

/-- One mask operation appends one frame, when the frame holds no separator. -/
theorem frames_step (s f : String) (hne : f ≠ "") (hf : ',' ∉ f.data) :
    frames ((if s ≠ "" then s ++ "," else s) ++ f) = frames s ++ [f] := by
  by_cases hs : s = ""
  · subst hs
    simp [frames, hne, Split_single f hf]
  · have hne' : s ++ "," ++ f ≠ "" := by
      intro h0
      have := congrArg String.data h0
      simp [String.data_append] at this
    simp [frames, hs, hne', Split_append_sep s f hf]

theorem frames_stackAfter (locs : List (String × Int)) :
    ∀ s : String, (∀ loc ∈ locs, ',' ∉ loc.1.data) →
      frames (stackAfter s locs) = frames s ++ locs.map (fun loc => frameOf loc.1 loc.2) := by
  induction locs with
  | nil => intro s _; simp [stackAfter]
  | cons loc rest ih =>
    intro s hfiles
    have hrest : ∀ l ∈ rest, ',' ∉ l.1.data := fun l hl => hfiles l (List.mem_cons_of_mem _ hl)
    have hloc : ',' ∉ loc.1.data := hfiles loc (List.mem_cons_self _ _)
    have hstep := frames_step s (frameOf loc.1 loc.2) (frameOf_ne_empty _ _)
      (frameOf_no_comma _ _ hloc)
    have := ih ((if s ≠ "" then s ++ "," else s) ++ frameOf loc.1 loc.2) hrest
    simp only [stackAfter, List.foldl_cons, List.map_cons] at this ⊢
    rw [this, hstep]
    simp

/-! ## The stack -/

theorem stackOf_record (h : Heap) (a : Nat) (r : Error) (ha : h[a]? = some r) :
    stackOf h (GoError.record (some a)) = r.Stck := by
  simp [stackOf, ha]

/-- C9: for an allocated record `r` whose `Wrpd` is already set, `Mask(r)` and
`Maskf(r, f, args...)` succeed and return a record with the same `Wrpd` reference and the
same `Type` as `r`, and so does any number of successive masks. -/
theorem wrapped_cause_and_type_kept (sprintf : String → List Arg → String) (file : String)
    (line : Int) (locs : List (String × Int)) (h : Heap) (p : Nat) (r : Error) (f : String)
    (v : List Arg) (hp : h[p]? = some r) (hw : r.Wrpd ≠ GoError.nil) :
    (∃ h' a r', Mask file line h (GoError.record (some p)) =
        some (h', GoError.record (some a)) ∧
      h'[a]? = some r' ∧ r'.Wrpd = r.Wrpd ∧ r'.Typ = r.Typ) ∧
    (∃ h' a r', Maskf sprintf file line h (some p) f v = some (h', GoError.record (some a)) ∧
      h'[a]? = some r' ∧ r'.Wrpd = r.Wrpd ∧ r'.Typ = r.Typ) ∧
    (∃ h' a r', MaskN locs h (GoError.record (some p)) = some (h', GoError.record (some a)) ∧
      h'[a]? = some r' ∧ r'.Wrpd = r.Wrpd ∧ r'.Typ = r.Typ) := by
  refine ⟨⟨_, _, _, Mask_record_eq file line h p r hp, Heap.getElem?_alloc_new h _, ?_, ?_⟩,
    ⟨_, _, _, Maskf_record_eq sprintf file line h p r f v hp, Heap.getElem?_alloc_new h _,
      ?_, ?_⟩, ?_⟩
  · simp [maskedRecord, hw]
  · simp [maskedRecord, hw]
  · simp [maskedRecord, hw]
  · simp [maskedRecord, hw]
  · obtain ⟨h', a, r', hrun, ha, _, _, _, _, _, hW, _, _⟩ := MaskN_record locs h p r hp
    exact ⟨h', a, r', hrun, ha, (hW hw).1, (hW hw).2⟩

theorem wrapped_cause_and_type_kept_witness :
    wrappedHeap[0]? = some
      { Anno := "test error one", Stck := "main.go:3", Typ := "*errors.errorString",
        Wrpd := GoError.other ⟨"*errors.errorString", 0, "test error one", true⟩ } ∧
    (GoError.other ⟨"*errors.errorString", 0, "test error one", true⟩ ≠ GoError.nil) ∧
    ∃ h' a r', Maskf plainSprintf "main.go" 9 wrappedHeap (some 0) "annotation" [] =
        some (h', GoError.record (some a)) ∧
      h'[a]? = some r' ∧
      r'.Wrpd = GoError.other ⟨"*errors.errorString", 0, "test error one", true⟩ ∧
      r'.Typ = "*errors.errorString" :=
  ⟨rfl, by decide,
    (wrapped_cause_and_type_kept plainSprintf "main.go" 9 [] wrappedHeap 0
      { Anno := "test error one", Stck := "main.go:3", Typ := "*errors.errorString",
        Wrpd := GoError.other ⟨"*errors.errorString", 0, "test error one", true⟩ }
      "annotation" [] rfl (by decide)).2.1⟩

/-! ## Metadata -/

/-- C10: the masking engine does not write the metadata fields. For an allocated record
`r`, the results of `Mask(r)` and `Maskf(r, f, args...)` have the `Kind`, `Desc` and `Docs`
of `r`, and the result of `Mask(r)` also its `Anno`; for a non-record error, the result of
`Mask` has empty `Kind`, `Desc` and `Docs`. -/
theorem metadata_fields_kept (sprintf : String → List Arg → String) (file : String)
    (line : Int) (h : Heap) (p : Nat) (r : Error) (f : String) (v : List Arg)
    (hp : h[p]? = some r) :
    (∃ h' a r', Mask file line h (GoError.record (some p)) =
        some (h', GoError.record (some a)) ∧ h'[a]? = some r' ∧
      r'.Kind = r.Kind ∧ r'.Desc = r.Desc ∧ r'.Docs = r.Docs ∧ r'.Anno = r.Anno) ∧
    (∃ h' a r', Maskf sprintf file line h (some p) f v = some (h', GoError.record (some a)) ∧
      h'[a]? = some r' ∧ r'.Kind = r.Kind ∧ r'.Desc = r.Desc ∧ r'.Docs = r.Docs) ∧
    (∀ o : Foreign, ∃ h' a r', Mask file line h (GoError.other o) =
        some (h', GoError.record (some a)) ∧ h'[a]? = some r' ∧
      r'.Kind = "" ∧ r'.Desc = "" ∧ r'.Docs = "") :=
  ⟨⟨_, _, _, Mask_record_eq file line h p r hp, Heap.getElem?_alloc_new h _,
      rfl, rfl, rfl, rfl⟩,
    ⟨_, _, _, Maskf_record_eq sprintf file line h p r f v hp, Heap.getElem?_alloc_new h _,
      rfl, rfl, rfl⟩,
    fun o => ⟨_, _, _, Mask_other_eq file line h o, Heap.getElem?_alloc_new h _,
      rfl, rfl, rfl⟩⟩

theorem metadata_fields_kept_witness :
    ([{ Desc := "d", Docs := "https://docs", Kind := "testErrorTwo" }] : Heap)[0]? =
      some { Desc := "d", Docs := "https://docs", Kind := "testErrorTwo" } ∧
    ∃ h' a r', Maskf plainSprintf "main.go" 9
        [{ Desc := "d", Docs := "https://docs", Kind := "testErrorTwo" }] (some 0)
        "annotation" [] = some (h', GoError.record (some a)) ∧
      h'[a]? = some r' ∧ r'.Kind = "testErrorTwo" ∧ r'.Desc = "d" ∧
      r'.Docs = "https://docs" :=
  ⟨rfl,
    (metadata_fields_kept plainSprintf "main.go" 9
      [{ Desc := "d", Docs := "https://docs", Kind := "testErrorTwo" }] 0
      { Desc := "d", Docs := "https://docs", Kind := "testErrorTwo" } "annotation" [] rfl).2.1⟩

/-! ## The text of the serialized object -/

theorem HasSuffix_brace_self : HasSuffix ("" ++ "\x7b") "\x7b" = true := by
  decide

theorem HasSuffix_brace_false (s : String) (w : List Char) (c : Char)
    (hs : s.data = w ++ [c]) (hc : c ≠ '\x7b') : HasSuffix s "\x7b" = false := by
  have hd : ("\x7b" : String).data = ['\x7b'] := rfl
  simp only [HasSuffix, List.isSuffixOf, hs, hd, List.reverse_append, List.reverse_cons,
    List.reverse_nil, List.nil_append, List.singleton_append, List.isPrefixOf]
  simp [Ne.symm hc]

theorem joinWith_concat (sep : String) (x : String) :
    ∀ es : List String, es ≠ [] → joinWith sep (es ++ [x]) = joinWith sep es ++ sep ++ x := by
  intro es
  induction es with
  | nil => intro hne; exact absurd rfl hne
  | cons a rest ih =>
    intro _
    cases rest with
    | nil => simp [joinWith]
    | cons b rest2 =>
      have := ih (by simp)
      show a ++ sep ++ joinWith sep ((b :: rest2) ++ [x]) =
        a ++ sep ++ joinWith sep (b :: rest2) ++ sep ++ x
      rw [this]
      simp [String.append_assoc]

theorem escape_ends (isPrint : Char → Bool) (v : String) :
    ∃ w c, (escape isPrint v).data = w ++ [c] ∧ c ≠ '\x7b' :=
  ⟨Char.ofNat 34 :: v.data.flatMap (appendEscapedRune isPrint), Char.ofNat 34, rfl, by decide⟩

theorem jsonStck_ends (stck st : String) (hst : jsonStck stck = some st) :
    ∃ w c, st.data = w ++ [c] ∧ c ≠ '\x7b' := by
  unfold jsonStck at hst
  by_cases hs : stck = ""
  · simp only [hs, if_true, Option.some.injEq] at hst
    subst hst
    exact ⟨[Char.ofNat 34], Char.ofNat 34, rfl, by decide⟩
  · simp only [hs, if_false, Option.map_eq_some'] at hst
    obtain ⟨body, _, hbody⟩ := hst
    subst hbody
    exact ⟨body.data, ']', by simp [String.data_append], by decide⟩

/-- The text built so far is the opening brace and the entries so far joined by commas,
and it ends with the brace only while there is no entry. -/
theorem appendEntry_step (s key val : String) (es : List String) (b : Prop) [Decidable b]
    (hs : s = "\x7b" ++ joinWith "," es) (hsuf : es ≠ [] → HasSuffix s "\x7b" = false)
    (hval : ∃ w c, val.data = w ++ [c] ∧ c ≠ '\x7b') :
    (if b then appendEntry s key val else s) =
        "\x7b" ++ joinWith "," (es ++ if b then [entry key val] else []) ∧
      (es ++ (if b then [entry key val] else []) ≠ [] →
        HasSuffix (if b then appendEntry s key val else s) "\x7b" = false) := by
  by_cases hb : b
  · simp only [hb, if_true]
    obtain ⟨w, c, hw, hc⟩ := hval
    constructor
    · cases es with
      | nil =>
        have hs' : s = "" ++ "\x7b" := by rw [hs]; rfl
        rw [hs']
        simp only [appendEntry, HasSuffix_brace_self]
        apply String.ext
        simp [entry, joinWith, String.data_append]
      | cons a rest =>
        rw [joinWith_concat "," _ (a :: rest) (by simp)]
        simp only [appendEntry, hsuf (by simp)]
        rw [hs]
        apply String.ext
        simp [entry, String.data_append]
    · intro _
      apply HasSuffix_brace_false _ ((if !HasSuffix s "\x7b" then s ++ "," else s).data ++
        ("\"" ++ key ++ "\"" ++ ":").data ++ w) c _ hc
      simp [appendEntry, String.data_append, hw]
  · simp only [hb, if_false, List.append_nil]
    exact ⟨hs, hsuf⟩

/-- The text of `jsonError` is the object of the entries of the non-empty fields. -/
theorem jsonErrorText_eq (isPrint : Char → Bool) (r : Error) (st : String)
    (hst : ∃ w c, st.data = w ++ [c] ∧ c ≠ '\x7b') :
    jsonErrorText isPrint r st = "\x7b" ++ joinWith "," (entriesOf isPrint r st) ++ "\x7d" := by
  have h1 : (if r.Anno ≠ "" then
        "" ++ "\x7b" ++ "\"" ++ "anno" ++ "\"" ++ ":" ++ escape isPrint r.Anno else "" ++ "\x7b") =
        "\x7b" ++ joinWith "," ([] ++ if r.Anno ≠ "" then
          [entry "anno" (escape isPrint r.Anno)] else []) ∧
      (([] ++ if r.Anno ≠ "" then [entry "anno" (escape isPrint r.Anno)] else []) ≠ [] →
        HasSuffix (if r.Anno ≠ "" then
          "" ++ "\x7b" ++ "\"" ++ "anno" ++ "\"" ++ ":" ++ escape isPrint r.Anno
          else "" ++ "\x7b") "\x7b" = false) := by
    by_cases ha : r.Anno = ""
    · simp [ha, joinWith]
    · obtain ⟨w, c, hw, hc⟩ := escape_ends isPrint r.Anno
      simp only [ne_eq, ha, not_false_eq_true, if_true, List.nil_append]
      constructor
      · apply String.ext
        simp [entry, joinWith, String.data_append]
      · intro _
        apply HasSuffix_brace_false _ (("" ++ "\x7b" ++ "\"" ++ "anno" ++ "\"" ++ ":").data ++ w)
          c _ hc
        simp [String.data_append, hw]
  have h2 := appendEntry_step _ "desc" (escape isPrint r.Desc) _ (r.Desc ≠ "") h1.1 h1.2
    (escape_ends isPrint r.Desc)
  have h3 := appendEntry_step _ "docs" (escape isPrint r.Docs) _ (r.Docs ≠ "") h2.1 h2.2
    (escape_ends isPrint r.Docs)
  have h4 := appendEntry_step _ "kind" (escape isPrint r.Kind) _ (r.Kind ≠ "") h3.1 h3.2
    (escape_ends isPrint r.Kind)
  have h5 := appendEntry_step _ "stck" st _ (r.Stck ≠ "") h4.1 h4.2 hst
  have h6 := appendEntry_step _ "type" (escape isPrint r.Typ) _ (r.Typ ≠ "") h5.1 h5.2
    (escape_ends isPrint r.Typ)
  have := h6.1
  simp only [List.nil_append] at this
  simp only [jsonErrorText, entriesOf]
  rw [this]

theorem jsonError_eq_text (isPrint : Char → Bool) (h : Heap) (p : Nat) (r : Error)
    (st : String) (hp : h[p]? = some r) (hst : jsonStck r.Stck = some st) :
    jsonError isPrint h (some p) = some (jsonErrorText isPrint r st) := by
  by_cases hs : r.Stck = ""
  · simp [jsonError, jsonErrorText, Heap.deref, hp, hs]
  · simp [jsonError, jsonErrorText, Heap.deref, hp, hs, hst]

/-! ## The rendered stack -/

theorem jsonStckLoop_isSome (n : Nat) :
    ∀ (fs : List String) (i : Nat) (s : String),
      (∀ f ∈ fs, 2 ≤ (Split f ':').length) → ∃ out, jsonStckLoop n i fs s = some out := by
  intro fs
  induction fs with
  | nil => intro i s _; exact ⟨s, rfl⟩
  | cons f rest ih =>
    intro i s hfs
    have hf := hfs f (List.mem_cons_self _ _)
    have hrest : ∀ g ∈ rest, 2 ≤ (Split g ':').length :=
      fun g hg => hfs g (List.mem_cons_of_mem _ hg)
    cases hc : Split f ':' with
    | nil => simp [hc] at hf
    | cons a tl =>
      cases tl with
      | nil => simp [hc] at hf
      | cons b tl2 =>
        obtain ⟨out, hout⟩ := ih (i + 1)
          (if i + 1 < n then s ++ "\"" ++ a ++ ":" ++ b ++ "\"" ++ ", "
            else s ++ "\"" ++ a ++ ":" ++ b ++ "\"") hrest
        exact ⟨out, by simp [jsonStckLoop, hc, hout]⟩

/-- The stack renders when every frame has two parts around a `":"`. -/
theorem jsonStck_isSome (stck : String)
    (hfr : ∀ f ∈ frames stck, 2 ≤ (Split f ':').length) : ∃ st, jsonStck stck = some st := by
  by_cases hs : stck = ""
  · exact ⟨"\"\"", by simp [jsonStck, hs]⟩
  · have hfr' : ∀ f ∈ Split stck ',', 2 ≤ (Split f ':').length := by
      simpa [frames, hs] using hfr
    obtain ⟨out, hout⟩ := jsonStckLoop_isSome (Split stck ',').length (Split stck ',') 0 "[" hfr'
    exact ⟨out ++ "]", by simp [jsonStck, hs, hout]⟩

theorem jsonStckLoop_exact (n : Nat) :
    ∀ (fs : List String) (i : Nat) (s : String), i + fs.length = n →
      (∀ f ∈ fs, ∃ a b tl, Split f ':' = a :: b :: tl ∧ a ++ ":" ++ b = f) →
      jsonStckLoop n i fs s = some (s ++ joinWith ", " (fs.map quoted)) := by
  intro fs
  induction fs with
  | nil =>
    intro i s _ _
    simp [jsonStckLoop, joinWith]
  | cons f rest ih =>
    intro i s hlen hfs
    obtain ⟨a, b, tl, hc, hab⟩ := hfs f (List.mem_cons_self _ _)
    have hrest : ∀ g ∈ rest, ∃ a b tl, Split g ':' = a :: b :: tl ∧ a ++ ":" ++ b = g :=
      fun g hg => hfs g (List.mem_cons_of_mem _ hg)
    have hq : s ++ "\"" ++ a ++ ":" ++ b ++ "\"" = s ++ quoted f := by
      rw [← hab]
      apply String.ext
      simp [quoted, String.data_append]
    cases rest with
    | nil =>
      have hi : ¬ i + 1 < n := by simp at hlen; omega
      simp [jsonStckLoop, hc, hi, hq, joinWith]
    | cons g rest2 =>
      have hi : i + 1 < n := by simp at hlen; omega
      have := ih (i + 1) (s ++ quoted f ++ ", ") (by simp at hlen ⊢; omega) hrest
      simp only [jsonStckLoop, hc, List.get?_cons_zero, List.get?_cons_succ, hi, if_true, hq,
        Option.bind_eq_bind, Option.some_bind, List.map_cons, joinWith] at this ⊢
      rw [this]
      simp [String.append_assoc]

theorem toString_int_no_colon (line : Int) : ':' ∉ (toString line).data := by
  intro hmem
  rcases toString_int_chars line _ hmem with h1 | h1
  · exact absurd h1 (by decide)
  · exact absurd h1 (by decide)

/-- A frame whose file name holds no `":"` splits into the file name and the line. -/
theorem Split_frameOf (file : String) (line : Int) (hfile : ':' ∉ file.data) :
    Split (frameOf file line) ':' = [file, toString line] := by
  have hsingle : file.data.splitOn ':' = [file.data] :=
    List.splitOnP_eq_single (· == ':') file.data (by
      intro x hx hp
      have : x = ':' := by simpa using hp
      exact hfile (this ▸ hx))
  simp [Split, frameOf_data, splitOn_append_sep ':' _ (toString_int_no_colon line) file.data,
    hsingle]

/-- A frame has at least two parts around `":"`, whatever the file name. -/
theorem Split_frameOf_length (file : String) (line : Int) :
    2 ≤ (Split (frameOf file line) ':').length := by
  have hne : file.data.splitOn ':' ≠ [] := List.splitOnP_ne_nil _ _
  have hpos : 0 < (file.data.splitOn ':').length := List.length_pos.mpr hne
  simp only [Split, frameOf_data,
    splitOn_append_sep ':' _ (toString_int_no_colon line) file.data, List.map_append,
    List.length_append, List.length_map, List.length_singleton]
  omega

theorem stackAfter_ne_empty (locs : List (String × Int)) (hne : locs ≠ [])
    (hfiles : ∀ loc ∈ locs, ',' ∉ loc.1.data) : stackAfter "" locs ≠ "" := by
  intro h0
  have hfr := frames_stackAfter locs "" hfiles
  rw [h0] at hfr
  cases locs with
  | nil => exact hne rfl
  | cons loc rest => simp [frames] at hfr

theorem Split_stackAfter (locs : List (String × Int)) (hne : locs ≠ [])
    (hfiles : ∀ loc ∈ locs, ',' ∉ loc.1.data) :
    Split (stackAfter "" locs) ',' = locs.map (fun loc => frameOf loc.1 loc.2) := by
  have hfr := frames_stackAfter locs "" hfiles
  simpa [frames, stackAfter_ne_empty locs hne hfiles] using hfr

/-- C11, as stated, fails: a record whose stack has a frame without `":"` (the exported
field `Stck` set to `x`) makes `jsonStck` index past the parts of the frame, so
`jsonError` faults and there is no serialized object. -/
theorem jsonError_frame_without_colon :
    jsonError isPrintASCII [{ Kind := "k", Stck := "x" }] (some 0) = none := by
  decide

/-- C11, amended: for every allocated record whose stack is empty or has a `":"` in each
frame, `jsonError` returns `{`, the entries of exactly the non-empty fields among `Anno`,
`Desc`, `Docs`, `Kind`, `Stck`, `Type` in that order under the keys `anno`, `desc`, `docs`,
`kind`, `stck`, `type`, joined by single commas, and `}`; a record with all six fields
empty serializes to `{}`. -/
theorem jsonError_object (isPrint : Char → Bool) (h : Heap) (p : Nat) (r : Error)
    (hp : h[p]? = some r) (hfr : ∀ f ∈ frames r.Stck, 2 ≤ (Split f ':').length) :
    ∃ st, jsonStck r.Stck = some st ∧
      jsonError isPrint h (some p) =
        some ("\x7b" ++ joinWith "," (entriesOf isPrint r st) ++ "\x7d") ∧
      (r.Anno = "" → r.Desc = "" → r.Docs = "" → r.Kind = "" → r.Stck = "" → r.Typ = "" →
        jsonError isPrint h (some p) = some "\x7b\x7d") := by
  obtain ⟨st, hst⟩ := jsonStck_isSome r.Stck hfr
  have htext := jsonError_eq_text isPrint h p r st hp hst
  rw [jsonErrorText_eq isPrint r st (jsonStck_ends r.Stck st hst)] at htext
  refine ⟨st, hst, htext, ?_⟩
  intro ha hd ho hk hs ht
  rw [htext]
  simp [entriesOf, ha, hd, ho, hk, hs, ht, joinWith]

theorem jsonError_object_witness :
    wrappedHeap[0]? = some
      { Anno := "test error one", Stck := "main.go:3", Typ := "*errors.errorString",
        Wrpd := GoError.other ⟨"*errors.errorString", 0, "test error one", true⟩ } ∧
    (∀ f ∈ frames "main.go:3", 2 ≤ (Split f ':').length) ∧
    jsonError isPrintASCII wrappedHeap (some 0) = some
      "\x7b\"anno\":\"test error one\",\"stck\":[\"main.go:3\"],\"type\":\"*errors.errorString\"\x7d" :=
  ⟨rfl, by decide, by
    obtain ⟨st, hst, htext, _⟩ := jsonError_object isPrintASCII wrappedHeap 0
      { Anno := "test error one", Stck := "main.go:3", Typ := "*errors.errorString",
        Wrpd := GoError.other ⟨"*errors.errorString", 0, "test error one", true⟩ } rfl (by decide)
    have hst2 : jsonStck "main.go:3" = some "[\"main.go:3\"]" := by decide
    have hval : st = "[\"main.go:3\"]" := Option.some.inj (hst.symm.trans hst2)
    subst hval
    exact htext.trans (by decide)⟩

/-! ## Frames as JSON strings -/

theorem toDigitsCore_forall (P : Char → Prop) (hP : ∀ d, d < 10 → P (Nat.digitChar d))
    (fuel : Nat) :
    ∀ (n : Nat) (ds : List Char), (∀ c ∈ ds, P c) →
      ∀ c ∈ Nat.toDigitsCore 10 fuel n ds, P c := by
  induction fuel with
  | zero =>
    intro n ds hds c hc
    exact hds c (by simpa [Nat.toDigitsCore] using hc)
  | succ fuel ih =>
    intro n ds hds c hc
    have hcons : ∀ x ∈ Nat.digitChar (n % 10) :: ds, P x := by
      intro x hx
      rcases List.mem_cons.mp hx with hx | hx
      · rw [hx]; exact hP _ (Nat.mod_lt _ (by decide))
      · exact hds x hx
    unfold Nat.toDigitsCore at hc
    by_cases hz : n / 10 = 0
    · simp only [hz, if_true] at hc
      exact hcons c hc
    · simp only [hz, if_false] at hc
      exact ih _ _ hcons c hc

/-- Every character of the numeral `%d` prints satisfies a property that the minus sign and
the ten digits satisfy. -/
theorem toString_int_forall (P : Char → Prop) (hminus : P '-')
    (hP : ∀ d, d < 10 → P (Nat.digitChar d)) (i : Int) : ∀ c ∈ (toString i).data, P c := by
  have hnat : ∀ n : Nat, ∀ c ∈ (Nat.repr n).data, P c := by
    intro n c hc
    exact toDigitsCore_forall P hP _ n [] (by simp) c
      (by simpa [Nat.repr, Nat.toDigits] using hc)
  intro c hc
  cases i with
  | ofNat m => exact hnat m c hc
  | negSucc m =>
    have hc' : c ∈ ("-" ++ Nat.repr (m + 1)).data := hc
    rw [String.data_append] at hc'
    rcases List.mem_append.mp hc' with h1 | h1
    · have : c = '-' := by simpa using h1
      rw [this]; exact hminus
    · exact hnat _ c h1

theorem jsonChars_plain (cs : List Char) (hcs : ∀ c ∈ cs, jsonPlain c = true) :
    jsonChars (cs ++ [Char.ofNat 34]) = some cs := by
  induction cs with
  | nil => simp [jsonChars]
  | cons c rest ih =>
    have hc := hcs c (List.mem_cons_self _ _)
    have hrest := ih (fun x hx => hcs x (List.mem_cons_of_mem _ hx))
    simp only [jsonPlain, Bool.and_eq_true, decide_eq_true_eq] at hc
    obtain ⟨⟨h1, h2⟩, h3⟩ := hc
    have h3' : ¬ c.toNat < 32 := by omega
    show jsonChars (c :: (rest ++ [Char.ofNat 34])) = some (c :: rest)
    rw [jsonChars.eq_def]
    simp [h1, h2, h3', hrest]

/-- A text of plain characters between double quotes is a JSON string literal for it. -/
theorem jsonStringValue_quoted (f : String) (hf : ∀ c ∈ f.data, jsonPlain c = true) :
    jsonStringValue (quoted f) = some f := by
  have hd : (quoted f).data = Char.ofNat 34 :: (f.data ++ [Char.ofNat 34]) := by
    simp [quoted, String.data_append]
  simp [jsonStringValue, hd, jsonChars_plain f.data hf]

theorem frameOf_plain (file : String) (line : Int) (hfile : ∀ c ∈ file.data, jsonPlain c = true) :
    ∀ c ∈ (frameOf file line).data, jsonPlain c = true := by
  intro c hc
  rw [frameOf_data] at hc
  rcases List.mem_append.mp hc with h1 | h1
  · exact hfile c h1
  · rcases List.mem_cons.mp h1 with h2 | h2
    · rw [h2]; decide
    · exact toString_int_forall (fun x => jsonPlain x = true) (by decide)
        (by intro d hd; interval_cases d <;> decide) line c h2

/-- C12, as stated, fails: for a file name with a `":"` (a Windows path) the rendered
frames lose their line, because `jsonStck` keeps the first two parts around `":"` only;
and for a file name with a `","` the one frame is split in two and `jsonStck` faults on
the part without `":"`. -/
theorem jsonStck_colon_in_file :
    stackAfter "" [("C:/a.go", 1), ("C:/b.go", 22)] = "C:/a.go:1,C:/b.go:22" ∧
    jsonStck (stackAfter "" [("C:/a.go", 1), ("C:/b.go", 22)]) =
      some "[\"C:/a.go\", \"C:/b.go\"]" ∧
    jsonStck (stackAfter "" [("a,b.go", 3)]) = none := by
  decide

/-- C12, amended: for every non-empty sequence of frames accumulated by mask at caller
locations whose file names are plain (no double quote, backslash or control character) and
hold neither `","` nor `":"`, `jsonStck` renders the stack as a JSON array of exactly `n`
strings whose `i`-th element is `file_i:line_i`, in the order appended: the text is `[`,
the `n` elements joined by a comma and a blank, and `]`, and each element is a JSON string
literal that stands for its frame. -/
theorem jsonStck_of_masked_frames (locs : List (String × Int)) (hne : locs ≠ [])
    (hfiles : ∀ loc ∈ locs, ',' ∉ loc.1.data ∧ ':' ∉ loc.1.data ∧
      ∀ c ∈ loc.1.data, jsonPlain c = true) :
    jsonStck (stackAfter "" locs) =
        some ("[" ++ joinWith ", " (locs.map (fun loc => quoted (frameOf loc.1 loc.2))) ++ "]") ∧
      (locs.map (fun loc => quoted (frameOf loc.1 loc.2))).length = locs.length ∧
      (∀ loc ∈ locs, jsonStringValue (quoted (frameOf loc.1 loc.2)) =
          some (frameOf loc.1 loc.2)) := by
  have hcomma : ∀ loc ∈ locs, ',' ∉ loc.1.data := fun loc hl => (hfiles loc hl).1
  have hsplit := Split_stackAfter locs hne hcomma
  have hstack := stackAfter_ne_empty locs hne hcomma
  refine ⟨?_, by simp, ?_⟩
  · have hloop := jsonStckLoop_exact (locs.map (fun loc => frameOf loc.1 loc.2)).length
      (locs.map (fun loc => frameOf loc.1 loc.2)) 0 "[" (by simp) (by
        intro f hf
        obtain ⟨loc, hl, rfl⟩ := List.mem_map.mp hf
        exact ⟨loc.1, toString loc.2, [], Split_frameOf loc.1 loc.2 (hfiles loc hl).2.1, rfl⟩)
    simp only [jsonStck, hstack, if_false, hsplit, hloop, Option.map_some', List.map_map]
    rfl
  · intro loc hl
    exact jsonStringValue_quoted _ (frameOf_plain loc.1 loc.2 (hfiles loc hl).2.2)

theorem jsonStck_of_masked_frames_witness :
    [("a.go", (1 : Int)), ("b.go", (22 : Int))] ≠ [] ∧
    (∀ loc ∈ [("a.go", (1 : Int)), ("b.go", (22 : Int))],
      ',' ∉ loc.1.data ∧ ':' ∉ loc.1.data ∧ ∀ c ∈ loc.1.data, jsonPlain c = true) ∧
    jsonStck (stackAfter "" [("a.go", 1), ("b.go", 22)]) =
      some "[\"a.go:1\", \"b.go:22\"]" :=
  ⟨by decide, by decide,
    (jsonStck_of_masked_frames [("a.go", 1), ("b.go", 22)] (by decide) (by decide)).1.trans
      (by decide)⟩

/-! ## Escaping -/

/-- C13, at the failing input: for the annotation that is the single control character
`U+0007`, `escape` (Go's `strconv.Quote`) emits the Go escape `\a`, which no JSON string
literal contains, so the emitted value is not a JSON string; and `jsonStck` writes a frame
between quotes without escaping it, so a double quote in a file name ends the literal
early. -/
theorem escape_bell_is_not_json :
    escape isPrintASCII "\x07" = "\"\\a\"" ∧
    jsonStringValue (escape isPrintASCII "\x07") = none ∧
    jsonError isPrintASCII [{ Anno := "\x07" }] (some 0) = some "\x7b\"anno\":\"\\a\"\x7d" ∧
    jsonStck "a\"b.go:3" = some "[\"a\"b.go:3\"]" ∧
    jsonStringValue (quoted "a\"b.go:3") = none := by
  decide

/-! ## Serializing what is not a record -/

theorem entriesOf_no_stack (isPrint : Char → Bool) (r : Error) (st st2 : String)
    (hs : r.Stck = "") : entriesOf isPrint r st = entriesOf isPrint r st2 := by
  simp [entriesOf, hs]

/-- C14: `JSON(nil)` is `{}`; for a non-record error, `JSON` is the serialization of the
record with `Anno` the message of the error, `Type` its dynamic type name and every other
field empty, wherever that record is allocated, and it is the object of the entries of
these two fields passed through the compaction of `json.Marshal`, so the result does not
depend on the heap. -/
theorem JSON_of_non_record (compact : String → Option String) (isPrint : Char → Bool)
    (h h2 : Heap) (o : Foreign) :
    JSON compact isPrint h GoError.nil = some "\x7b\x7d" ∧
    JSON compact isPrint h (GoError.other o) =
      JSON compact isPrint (h2 ++ [{ Anno := o.msg, Typ := o.typ }])
        (GoError.record (some h2.length)) ∧
    JSON compact isPrint h (GoError.other o) =
      compact ("\x7b" ++ joinWith "," (entriesOf isPrint { Anno := o.msg, Typ := o.typ } "") ++
        "\x7d") := by
  have htext : ∀ g : Heap, jsonError isPrint (g ++ [{ Anno := o.msg, Typ := o.typ }])
      (some g.length) = some ("\x7b" ++
        joinWith "," (entriesOf isPrint { Anno := o.msg, Typ := o.typ } "") ++ "\x7d") := by
    intro g
    have hst : jsonStck ({ Anno := o.msg, Typ := o.typ } : Error).Stck = some "\"\"" := by
      simp [jsonStck]
    rw [jsonError_eq_text isPrint _ _ _ _ (Heap.getElem?_alloc_new g _) hst,
      jsonErrorText_eq isPrint _ _ (jsonStck_ends _ _ hst),
      entriesOf_no_stack isPrint _ "\"\"" "" rfl]
  refine ⟨rfl, ?_, ?_⟩
  · simp [JSON, mustJSONMarshal, Heap.alloc, typeName, htext]
  · simp [JSON, mustJSONMarshal, Heap.alloc, typeName, htext]

/-! ## Serializing a masked error -/

/-- C15, as stated, fails: for a caller whose file name holds a `","` the stack of
`Mask(e)` has a frame without `":"`, and serializing the result faults. -/
theorem maskJSON_comma_in_file :
    (Mask "a,b.go" 3 [] (GoError.other ⟨"*errors.errorString", 0, "test error one", true⟩)).isSome
      = true ∧
    maskJSON some isPrintASCII "a,b.go" 3 []
      (GoError.other ⟨"*errors.errorString", 0, "test error one", true⟩) = none := by
  decide

theorem jsonChars_step (isPrint : Char → Bool) (c : Char) (tail : List Char)
    (hc : quoteSafe isPrint c = true) :
    jsonChars (appendEscapedRune isPrint c ++ tail) = (jsonChars tail).map (c :: ·) := by
  simp only [quoteSafe, Bool.and_eq_true, Bool.or_eq_true, Bool.not_eq_true', beq_iff_eq] at hc
  obtain ⟨_, hc⟩ := hc
  rcases hc with ((h1 | h1) | h1) | h1
  · subst h1
    simp [appendEscapedRune]
    rw [jsonChars.eq_def]
    simp
  · subst h1
    simp [appendEscapedRune]
    rw [jsonChars.eq_def]
    simp
  · obtain ⟨hp, hj⟩ := h1
    simp only [jsonPlain, Bool.and_eq_true, decide_eq_true_eq] at hj
    obtain ⟨⟨hq, hb⟩, h32⟩ := hj
    have h32n : ¬ c.toNat < 32 := by omega
    simp [appendEscapedRune, hq, hb, hp]
    rw [jsonChars.eq_def]
    simp [hq, hb, h32n]
  · obtain ⟨hp, hctl⟩ := h1
    rcases hctl with (((h8 | h12) | h10) | h13) | h9
    all_goals
      subst_vars
      simp [appendEscapedRune, hp]
      rw [jsonChars.eq_def]
      simp

theorem jsonChars_escaped (isPrint : Char → Bool) (cs : List Char)
    (hcs : ∀ c ∈ cs, quoteSafe isPrint c = true) :
    jsonChars (cs.flatMap (appendEscapedRune isPrint) ++ [Char.ofNat 34]) = some cs := by
  induction cs with
  | nil => simp [jsonChars]
  | cons c rest ih =>
    have hrest := ih (fun x hx => hcs x (List.mem_cons_of_mem _ hx))
    rw [List.flatMap_cons, List.append_assoc,
      jsonChars_step isPrint c _ (hcs c (List.mem_cons_self _ _)), hrest]
    rfl

/-- What `escape` writes for a text of characters that Go and JSON quote alike is a JSON
string literal that stands for the text. -/
theorem jsonStringValue_escape (isPrint : Char → Bool) (v : String)
    (hv : ∀ c ∈ v.data, quoteSafe isPrint c = true) :
    jsonStringValue (escape isPrint v) = some v := by
  have hd : (escape isPrint v).data =
      Char.ofNat 34 :: (v.data.flatMap (appendEscapedRune isPrint) ++ [Char.ofNat 34]) := rfl
  simp [jsonStringValue, hd, jsonChars_escaped isPrint v.data hv]

/-- C15, amended: for every non-record error with a non-empty message and every caller
location, where the message and the type name consist of characters that `strconv.Quote`
and JSON write alike and that the compaction of `json.Marshal` leaves alone, and the file
name is plain, without such rewritten characters and without `","` and `":"`, `Mask(e)`
serializes to the object with exactly the keys `anno`, `stck`, `type` in that order:
`anno` is a JSON string for the message, `stck` the array of the one JSON string for the
frame `file:line`, `type` a JSON string for the dynamic type name (which is never empty in
Go); this is the text `jsonError` returns, and what `JSON` returns when the compaction of
`json.Marshal` leaves that text as it is. -/
theorem maskJSON_of_non_record (compact : String → Option String) (isPrint : Char → Bool)
    (file : String) (line : Int) (h : Heap) (o : Foreign) (hmsg : o.msg ≠ "")
    (htyp : o.typ ≠ "") (hmsgSafe : ∀ c ∈ o.msg.data, quoteSafe isPrint c = true)
    (htypSafe : ∀ c ∈ o.typ.data, quoteSafe isPrint c = true)
    (hfile : ',' ∉ file.data ∧ ':' ∉ file.data ∧
      ∀ c ∈ file.data, jsonPlain c = true ∧ htmlRewritten c = false) :
    ∃ h' a, Mask file line h (GoError.other o) = some (h', GoError.record (some a)) ∧
      jsonError isPrint h' (some a) =
        some ("\x7b" ++ joinWith "," [entry "anno" (escape isPrint o.msg),
          entry "stck" ("[" ++ quoted (frameOf file line) ++ "]"),
          entry "type" (escape isPrint o.typ)] ++ "\x7d") ∧
      jsonStringValue (escape isPrint o.msg) = some o.msg ∧
      jsonStringValue (quoted (frameOf file line)) = some (frameOf file line) ∧
      jsonStringValue (escape isPrint o.typ) = some o.typ ∧
      (compact ("\x7b" ++ joinWith "," [entry "anno" (escape isPrint o.msg),
          entry "stck" ("[" ++ quoted (frameOf file line) ++ "]"),
          entry "type" (escape isPrint o.typ)] ++ "\x7d") =
        some ("\x7b" ++ joinWith "," [entry "anno" (escape isPrint o.msg),
          entry "stck" ("[" ++ quoted (frameOf file line) ++ "]"),
          entry "type" (escape isPrint o.typ)] ++ "\x7d") →
        maskJSON compact isPrint file line h (GoError.other o) =
          some ("\x7b" ++ joinWith "," [entry "anno" (escape isPrint o.msg),
            entry "stck" ("[" ++ quoted (frameOf file line) ++ "]"),
            entry "type" (escape isPrint o.typ)] ++ "\x7d")) := by
  have hM := Mask_other_eq file line h o
  have hnew := Heap.getElem?_alloc_new h
    (maskedRecord (GoError.other o) { Anno := o.msg } (frameOf file line))
  have hplainFile : ∀ c ∈ file.data, jsonPlain c = true := fun c hc => (hfile.2.2 c hc).1
  have hframes := jsonStck_of_masked_frames [(file, line)] (by simp)
    (by intro loc hl; rw [List.mem_singleton.mp hl]; exact ⟨hfile.1, hfile.2.1, hplainFile⟩)
  have hst := hframes.1
  have hS : (maskedRecord (GoError.other o) { Anno := o.msg } (frameOf file line)).Stck =
      stackAfter "" [(file, line)] := by
    simp [maskedRecord, stackAfter]
  have hSne : (maskedRecord (GoError.other o) { Anno := o.msg } (frameOf file line)).Stck ≠ "" := by
    rw [hS]
    exact stackAfter_ne_empty _ (by simp)
      (by intro loc hl; rw [List.mem_singleton.mp hl]; exact hfile.1)
  rw [← hS] at hst
  have htext := jsonError_eq_text isPrint _ _ _ _ hnew hst
  rw [jsonErrorText_eq isPrint _ _ (jsonStck_ends _ _ hst)] at htext
  have hentries : entriesOf isPrint
      (maskedRecord (GoError.other o) { Anno := o.msg } (frameOf file line))
      ("[" ++ joinWith ", " ([(file, line)].map (fun loc => quoted (frameOf loc.1 loc.2))) ++ "]")
      = [entry "anno" (escape isPrint o.msg),
          entry "stck" ("[" ++ quoted (frameOf file line) ++ "]"),
          entry "type" (escape isPrint o.typ)] := by
    have h1 : (maskedRecord (GoError.other o) { Anno := o.msg } (frameOf file line)).Anno
        = o.msg := rfl
    have h2 : (maskedRecord (GoError.other o) { Anno := o.msg } (frameOf file line)).Typ
        = o.typ := by simp [maskedRecord, typeName]
    have h3 : (maskedRecord (GoError.other o) { Anno := o.msg } (frameOf file line)).Desc
        = "" := rfl
    have h4 : (maskedRecord (GoError.other o) { Anno := o.msg } (frameOf file line)).Docs
        = "" := rfl
    have h5 : (maskedRecord (GoError.other o) { Anno := o.msg } (frameOf file line)).Kind
        = "" := rfl
    simp only [entriesOf, h1, h2, h3, h4, h5, ne_eq, hmsg, htyp, hSne, not_false_eq_true,
      if_true, not_true_eq_false, if_false, List.map_cons, List.map_nil, joinWith,
      List.append_nil, List.singleton_append, List.cons_append, List.nil_append]
  rw [hentries] at htext
  refine ⟨_, _, hM, htext, jsonStringValue_escape isPrint o.msg hmsgSafe,
    hframes.2.2 (file, line) (List.mem_singleton.mpr rfl),
    jsonStringValue_escape isPrint o.typ htypSafe, ?_⟩
  intro hcompact
  simp only [maskJSON, hM, Option.bind_eq_bind, Option.some_bind, JSON, mustJSONMarshal, htext,
    hcompact]

theorem maskJSON_of_non_record_witness :
    ("test error one" ≠ "") ∧ ("*errors.errorString" ≠ "") ∧
    (∀ c ∈ "test error one".data, quoteSafe isPrintASCII c = true) ∧
    (∀ c ∈ "*errors.errorString".data, quoteSafe isPrintASCII c = true) ∧
    (',' ∉ "main.go".data ∧ ':' ∉ "main.go".data ∧
      ∀ c ∈ "main.go".data, jsonPlain c = true ∧ htmlRewritten c = false) ∧
    maskJSON some isPrintASCII "main.go" 12 []
      (GoError.other ⟨"*errors.errorString", 0, "test error one", true⟩) = some
      "\x7b\"anno\":\"test error one\",\"stck\":[\"main.go:12\"],\"type\":\"*errors.errorString\"\x7d" :=
  ⟨by decide, by decide, by decide, by decide, by decide, by
    obtain ⟨_, _, _, _, _, _, _, hjson⟩ := maskJSON_of_non_record some isPrintASCII "main.go"
      12 [] ⟨"*errors.errorString", 0, "test error one", true⟩ (by decide) (by decide)
      (by decide) (by decide) (by decide)
    exact (hjson rfl).trans (by decide)⟩

/-! ## Totality -/

/-- C16, as stated, fails: `Maskf` on a nil `*Error` faults, because the copy dereferences
the nil pointer; `Mask` on an interface that holds a nil `*Error` faults in the same
place. -/
theorem Maskf_nil_pointer_faults :
    Maskf plainSprintf "main.go" 9 [] none "annotation" [] = none ∧
    Mask "main.go" 9 [] (GoError.record none) = none := by
  decide

/-- C16, amended: `Mask(nil)` returns nil; `Mask` of every non-record error and of every
pointer to an allocated record returns a pointer to an allocated record; `Maskf` returns a
pointer to an allocated record for every pointer to an allocated record, every format and
every argument list. -/
theorem Mask_total_on_allocated (sprintf : String → List Arg → String) (file : String)
    (line : Int) (h : Heap) (f : String) (v : List Arg) :
    Mask file line h GoError.nil = some (h, GoError.nil) ∧
    (∀ e : GoError, Allocated h e →
      ∃ h' a r', Mask file line h e = some (h', GoError.record (some a)) ∧
        h'[a]? = some r') ∧
    (∀ (p : Nat) (r : Error), h[p]? = some r →
      ∃ h' a r', Maskf sprintf file line h (some p) f v =
          some (h', GoError.record (some a)) ∧ h'[a]? = some r') := by
  refine ⟨by simp [Mask], ?_, ?_⟩
  · intro e hal
    cases e with
    | nil => exact absurd hal (by simp [Allocated])
    | other o =>
      exact ⟨_, _, _, Mask_other_eq file line h o, Heap.getElem?_alloc_new h _⟩
    | record p =>
      cases p with
      | none => exact absurd hal (by simp [Allocated])
      | some p =>
        obtain ⟨r, hp⟩ := hal
        exact ⟨_, _, _, Mask_record_eq file line h p r hp, Heap.getElem?_alloc_new h _⟩
  · intro p r hp
    exact ⟨_, _, _, Maskf_record_eq sprintf file line h p r f v hp,
      Heap.getElem?_alloc_new h _⟩

theorem Mask_total_on_allocated_witness :
    ([{ Kind := "testErrorTwo" }] : Heap)[0]? = some { Kind := "testErrorTwo" } ∧
    ∃ h' a r', Maskf plainSprintf "main.go" 9 [{ Kind := "testErrorTwo" }] (some 0)
        "annotation" [] = some (h', GoError.record (some a)) ∧ h'[a]? = some r' :=
  ⟨rfl,
    (Mask_total_on_allocated plainSprintf "main.go" 9 [{ Kind := "testErrorTwo" }]
      "annotation" []).2.2 0 { Kind := "testErrorTwo" } rfl⟩

/-! ## The reference definition of `Cause` -/

/-- C17, as stated, fails: on an interface that holds a nil `*Error`, which is an error
other than nil and not a record with `Wrpd` set, `Cause` does not return the input: it
reads `e.Wrpd` through the nil pointer and faults. -/
theorem Cause_nil_pointer_faults :
    GoError.record none ≠ GoError.nil ∧ Cause [] (GoError.record none) = none := by
  decide

/-- C17, amended: `Cause(nil)` is nil; for a pointer to an allocated record whose `Wrpd` is
set `Cause` returns that `Wrpd` as it is, whatever it wraps itself; for a non-record error
and for a pointer to an allocated record with nil `Wrpd` it returns the input itself; on
a nil `*Error` it faults. -/
theorem Cause_reference (h : Heap) :
    Cause h GoError.nil = some GoError.nil ∧
    (∀ o : Foreign, Cause h (GoError.other o) = some (GoError.other o)) ∧
    (∀ (p : Nat) (r : Error), h[p]? = some r → r.Wrpd ≠ GoError.nil →
      Cause h (GoError.record (some p)) = some r.Wrpd) ∧
    (∀ (p : Nat) (r : Error), h[p]? = some r → r.Wrpd = GoError.nil →
      Cause h (GoError.record (some p)) = some (GoError.record (some p))) ∧
    Cause h (GoError.record none) = none :=
  ⟨rfl, fun _ => rfl, fun p r hp hw => Cause_record_wrapped h p r hp hw,
    fun p r hp hw => Cause_record_unwrapped h p r hp hw, rfl⟩

theorem Cause_reference_witness :
    chainHeap[2]? = some { Kind := "outer", Wrpd := GoError.record (some 1) } ∧
    (GoError.record (some 1) ≠ GoError.nil) ∧
    Cause chainHeap (GoError.record (some 2)) = some (GoError.record (some 1)) :=
  ⟨rfl, by decide,
    (Cause_reference chainHeap).2.2.1 2 { Kind := "outer", Wrpd := GoError.record (some 1) }
      rfl (by decide)⟩

/-! ## Sequences of masking calls -/

theorem applyOp_record_eq (sprintf : String → List Arg → String) (op : Op) (h : Heap)
    (p : Nat) (r : Error) (hp : h[p]? = some r) :
    ∃ r0, applyOp sprintf op h (GoError.record (some p)) =
        some (h ++ [r0], GoError.record (some h.length)) ∧
      r0.Desc = r.Desc ∧ r0.Docs = r.Docs ∧ r0.Kind = r.Kind ∧
      (r.Wrpd ≠ GoError.nil → r0.Wrpd = r.Wrpd ∧ r0.Typ = r.Typ) ∧
      (r.Wrpd = GoError.nil → r0.Wrpd = GoError.record (some p)) ∧
      r0.Stck = (if r.Stck ≠ "" then r.Stck ++ "," else r.Stck) ++ frameOf op.loc.1 op.loc.2 := by
  cases op with
  | mask file line =>
    refine ⟨_, Mask_record_eq file line h p r hp, rfl, rfl, rfl, ?_, ?_, rfl⟩
    · intro hw; simp [maskedRecord, hw]
    · intro hw; simp [maskedRecord, hw]
  | maskf file line f v =>
    refine ⟨_, Maskf_record_eq sprintf file line h p r f v hp, rfl, rfl, rfl, ?_, ?_, rfl⟩
    · intro hw; simp [maskedRecord, hw]
    · intro hw; simp [maskedRecord, hw]

/-- Successive masking calls on an allocated record: the result is a fresh record, the
heap only grows, the metadata, and the cause once set, are kept, and the stack gets the
frames of the calls. -/
theorem applyOps_record (sprintf : String → List Arg → String) (ops : List Op) :
    ∀ (h : Heap) (p : Nat) (r : Error), h[p]? = some r →
      ∃ h' a r', applyOps sprintf ops h (GoError.record (some p)) =
          some (h', GoError.record (some a)) ∧
        h'[a]? = some r' ∧
        (∀ (q : Nat) (x : Error), h[q]? = some x → h'[q]? = some x) ∧
        r'.Desc = r.Desc ∧ r'.Docs = r.Docs ∧ r'.Kind = r.Kind ∧
        (r.Wrpd ≠ GoError.nil → r'.Wrpd = r.Wrpd ∧ r'.Typ = r.Typ) ∧
        (r.Wrpd = GoError.nil → ops ≠ [] → r'.Wrpd = GoError.record (some p)) ∧
        r'.Stck = stackAfter r.Stck (ops.map Op.loc) := by
  induction ops with
  | nil =>
    intro h p r hp
    exact ⟨h, p, r, rfl, hp, fun _ _ hq => hq, rfl, rfl, rfl, fun _ => ⟨rfl, rfl⟩,
      fun _ hne => absurd rfl hne, rfl⟩
  | cons op rest ih =>
    intro h p r hp
    obtain ⟨r0, hstep, hD0, hO0, hK0, hW0, hN0, hS0⟩ := applyOp_record_eq sprintf op h p r hp
    obtain ⟨h', a, r', hrun, ha, hold, hD, hO, hK, hW, _, hS⟩ :=
      ih _ _ _ (Heap.getElem?_alloc_new h r0)
    refine ⟨h', a, r', ?_, ha, ?_, hD.trans hD0, hO.trans hO0, hK.trans hK0, ?_, ?_, ?_⟩
    · simp [applyOps, hstep, hrun]
    · intro q x hq
      exact hold q x (Heap.getElem?_alloc_old h _ x q hq)
    · intro hne
      have h0 := hW0 hne
      have h1 := hW (by rw [h0.1]; exact hne)
      exact ⟨h1.1.trans h0.1, h1.2.trans h0.2⟩
    · intro hnil _
      have h0 := hN0 hnil
      have h1 := hW (by rw [h0]; simp)
      exact h1.1.trans h0
    · rw [hS, hS0]
      simp [stackAfter]

theorem Cause_of_allocated (h : Heap) (e : GoError) (hal : Allocated h e) :
    ∃ c, Cause h e = some c ∧ c ≠ GoError.nil := by
  cases e with
  | nil => exact absurd hal (by simp [Allocated])
  | other o => exact ⟨_, rfl, by simp⟩
  | record p =>
    cases p with
    | none => exact absurd hal (by simp [Allocated])
    | some p =>
      obtain ⟨r, hp⟩ := hal
      by_cases hw : r.Wrpd = GoError.nil
      · exact ⟨_, Cause_record_unwrapped h p r hp hw, by simp⟩
      · exact ⟨_, Cause_record_wrapped h p r hp hw, hw⟩

/-- Masking calls from any error the code can be handed: the result is a fresh record whose
`Wrpd` is the cause the error had, and whose stack is the stack of the error followed by
the frames of the calls. -/
theorem applyOps_start (sprintf : String → List Arg → String) (ops : List Op) (h : Heap)
    (e : GoError) (hal : Allocated h e) (happ : Applicable e ops) (hne : ops ≠ []) :
    ∃ h' a r' c, applyOps sprintf ops h e = some (h', GoError.record (some a)) ∧
      h'[a]? = some r' ∧
      (∀ (q : Nat) (x : Error), h[q]? = some x → h'[q]? = some x) ∧
      Cause h e = some c ∧ c ≠ GoError.nil ∧ r'.Wrpd = c ∧
      r'.Stck = stackAfter (stackOf h e) (ops.map Op.loc) := by
  cases e with
  | nil => exact absurd hal (by simp [Allocated])
  | other o =>
    cases ops with
    | nil => exact absurd rfl hne
    | cons op rest =>
      cases op with
      | maskf file line f v => exact absurd happ (by simp [Applicable])
      | mask file line =>
        have hnew := Heap.getElem?_alloc_new h
          (maskedRecord (GoError.other o) { Anno := o.msg } (frameOf file line))
        obtain ⟨h', a, r', hrun, ha, hold, _, _, _, hW, _, hS⟩ :=
          applyOps_record sprintf rest _ _ _ hnew
        refine ⟨h', a, r', GoError.other o, ?_, ha, ?_, rfl, by simp, ?_, ?_⟩
        · simp [applyOps, applyOp, Mask_other_eq file line h o, hrun]
        · intro q x hq
          exact hold q x (Heap.getElem?_alloc_old h _ x q hq)
        · have := (hW (by simp [maskedRecord])).1
          simpa [maskedRecord] using this
        · rw [hS]
          simp [maskedRecord, stackAfter, stackOf, Op.loc]
  | record p =>
    cases p with
    | none => exact absurd hal (by simp [Allocated])
    | some p =>
      obtain ⟨r, hp⟩ := hal
      obtain ⟨h', a, r', hrun, ha, hold, _, _, _, hW, hN, hS⟩ :=
        applyOps_record sprintf ops h p r hp
      by_cases hw : r.Wrpd = GoError.nil
      · exact ⟨h', a, r', _, hrun, ha, hold, Cause_record_unwrapped h p r hp hw, by simp,
          hN hw hne, by rw [hS, stackOf_record h p r hp]⟩
      · exact ⟨h', a, r', _, hrun, ha, hold, Cause_record_wrapped h p r hp hw, hw,
          (hW hw).1, by rw [hS, stackOf_record h p r hp]⟩

theorem NeverWrapped_allocated (h : Heap) (e : GoError) (hun : NeverWrapped h e) :
    Allocated h e ∧ Cause h e = some e := by
  cases e with
  | nil => exact absurd hun (by simp [NeverWrapped])
  | other o => exact ⟨trivial, rfl⟩
  | record p =>
    cases p with
    | none => exact absurd hun (by simp [NeverWrapped])
    | some p =>
      obtain ⟨r, hp, hw⟩ := hun
      exact ⟨⟨r, hp⟩, Cause_record_unwrapped h p r hp hw⟩

/-- C18: starting from a non-record error or a never-wrapped record and applying `Mask`
and `Maskf` any number of times (at least once), the calls succeed and the resulting
record has the error started from as its `Wrpd`; that `Wrpd` is not a record with `Wrpd`
set, so `Cause` of the result is the error started from and `Cause` of that is itself
again. The statement holds for every sequence of calls, hence for every record met on the
way. -/
theorem stored_cause_is_terminal (sprintf : String → List Arg → String) (ops : List Op)
    (h : Heap) (e : GoError) (hun : NeverWrapped h e) (happ : Applicable e ops)
    (hne : ops ≠ []) :
    ∃ h' a r', applyOps sprintf ops h e = some (h', GoError.record (some a)) ∧
      h'[a]? = some r' ∧ r'.Wrpd = e ∧
      (∀ (q : Nat) (rq : Error), r'.Wrpd = GoError.record (some q) → h'[q]? = some rq →
        rq.Wrpd = GoError.nil) ∧
      Cause h' (GoError.record (some a)) = some e ∧ Cause h' e = some e := by
  obtain ⟨hal, hce⟩ := NeverWrapped_allocated h e hun
  obtain ⟨h', a, r', c, hrun, ha, hold, hc, hcne, hw, _⟩ :=
    applyOps_start sprintf ops h e hal happ hne
  have hce' : c = e := Option.some.inj (hc.symm.trans hce)
  subst hce'
  refine ⟨h', a, r', hrun, ha, hw, ?_, ?_, Cause_of_grown h h' hold _ _ hce⟩
  · intro q rq hq hrq
    rw [hw] at hq
    subst hq
    obtain ⟨r, hp, hnil⟩ := hun
    have := hold q r hp
    rw [hrq] at this
    rw [Option.some.inj this]
    exact hnil
  · rw [Cause_record_wrapped h' a r' ha (by rw [hw]; exact hcne), hw]

theorem stored_cause_is_terminal_witness :
    NeverWrapped [{ Kind := "testErrorTwo" }] (GoError.record (some 0)) ∧
    Applicable (GoError.record (some 0))
      [Op.maskf "a.go" 1 "annotation" [], Op.mask "b.go" 22] ∧
    [Op.maskf "a.go" 1 "annotation" [], Op.mask "b.go" 22] ≠ [] ∧
    ∃ h' a r', applyOps plainSprintf [Op.maskf "a.go" 1 "annotation" [], Op.mask "b.go" 22]
        [{ Kind := "testErrorTwo" }] (GoError.record (some 0)) =
          some (h', GoError.record (some a)) ∧
      h'[a]? = some r' ∧ r'.Wrpd = GoError.record (some 0) ∧
      Cause h' (GoError.record (some 0)) = some (GoError.record (some 0)) :=
  ⟨⟨_, rfl, rfl⟩, trivial, by decide,
    let ⟨h', a, r', hrun, ha, hw, _, _, hterm⟩ :=
      stored_cause_is_terminal plainSprintf
        [Op.maskf "a.go" 1 "annotation" [], Op.mask "b.go" 22]
        [{ Kind := "testErrorTwo" }] (GoError.record (some 0)) ⟨_, rfl, rfl⟩ trivial
        (by decide)
    ⟨h', a, r', hrun, ha, hw, hterm⟩⟩

/-! ## Serializing the stacks the masking engine builds -/

/-- C19, as stated, fails: one `Mask` from a caller whose file name holds a `","` builds a
stack with the frame `a`, which has no second part around `":"`, and `jsonStck` faults on
it. -/
theorem jsonStck_faults_on_masked_stack :
    opsStack plainSprintf [Op.mask "a,b.go" 3] []
      (GoError.other ⟨"*errors.errorString", 0, "test error one", true⟩) = some "a,b.go:3" ∧
    frames "a,b.go:3" = ["a", "b.go:3"] ∧
    (Split "a" ':').length = 1 ∧
    jsonStck "a,b.go:3" = none := by
  decide

/-- C19, amended: for every error with an empty stack and every sequence of `Mask` and
`Maskf` calls from callers whose file names hold no `","` (the empty sequence included),
the calls succeed, every frame of the resulting stack splits on `":"` into at least two
parts, `jsonStck` returns a text for the stack, and `jsonError` returns a text for the
resulting record. -/
theorem serialization_of_masked_stack (sprintf : String → List Arg → String)
    (isPrint : Char → Bool) (ops : List Op) (h : Heap) (e : GoError) (hal : Allocated h e)
    (hstack : stackOf h e = "") (happ : Applicable e ops)
    (hfiles : ∀ op ∈ ops, ',' ∉ op.loc.1.data) :
    ∃ h' m, applyOps sprintf ops h e = some (h', m) ∧
      opsStack sprintf ops h e = some (stackOf h' m) ∧
      (∀ f ∈ frames (stackOf h' m), 2 ≤ (Split f ':').length) ∧
      (∃ st, jsonStck (stackOf h' m) = some st) ∧
      (∀ a : Nat, m = GoError.record (some a) →
        ∃ out, jsonError isPrint h' (some a) = some out) := by
  have hframes : ∀ s : String, s = stackAfter "" (ops.map Op.loc) →
      ∀ f ∈ frames s, 2 ≤ (Split f ':').length := by
    intro s hs f hf
    have hfr := frames_stackAfter (ops.map Op.loc) "" (by
      intro loc hl
      obtain ⟨op, hop, rfl⟩ := List.mem_map.mp hl
      exact hfiles op hop)
    rw [hs, hfr] at hf
    simp only [frames, if_true, List.nil_append, List.map_map, List.mem_map] at hf
    obtain ⟨op, _, rfl⟩ := hf
    exact Split_frameOf_length _ _
  by_cases hne : ops = []
  · subst hne
    have hfr : ∀ f ∈ frames (stackOf h e), 2 ≤ (Split f ':').length :=
      hframes _ (by rw [hstack]; rfl)
    refine ⟨h, e, rfl, rfl, hfr, jsonStck_isSome _ hfr, ?_⟩
    intro a ha
    subst ha
    obtain ⟨r, hp⟩ := hal
    rw [stackOf_record h a r hp] at hfr
    obtain ⟨st, _, htext, _⟩ := jsonError_object isPrint h a r hp hfr
    exact ⟨_, htext⟩
  · obtain ⟨h', a, r', c, hrun, ha, _, _, _, _, hS⟩ :=
      applyOps_start sprintf ops h e hal happ hne
    rw [hstack] at hS
    have hfr : ∀ f ∈ frames (stackOf h' (GoError.record (some a))),
        2 ≤ (Split f ':').length :=
      hframes _ (by rw [stackOf_record h' a r' ha]; exact hS)
    refine ⟨h', _, hrun, by simp [opsStack, hrun], hfr, jsonStck_isSome _ hfr, ?_⟩
    intro b hb
    have hab : a = b := by
      have := GoError.record.inj hb
      exact Option.some.inj this
    subst hab
    rw [stackOf_record h' a r' ha] at hfr
    obtain ⟨st, _, htext, _⟩ := jsonError_object isPrint h' a r' ha hfr
    exact ⟨_, htext⟩

theorem serialization_of_masked_stack_witness :
    Allocated [] (GoError.other ⟨"*errors.errorString", 0, "test error one", true⟩) ∧
    stackOf [] (GoError.other ⟨"*errors.errorString", 0, "test error one", true⟩) = "" ∧
    Applicable (GoError.other ⟨"*errors.errorString", 0, "test error one", true⟩)
      [Op.mask "C:/a.go" 1, Op.maskf "b.go" 22 "annotation" []] ∧
    (∀ op ∈ [Op.mask "C:/a.go" 1, Op.maskf "b.go" 22 "annotation" []],
      ',' ∉ op.loc.1.data) ∧
    ∃ h' m, applyOps plainSprintf [Op.mask "C:/a.go" 1, Op.maskf "b.go" 22 "annotation" []]
        [] (GoError.other ⟨"*errors.errorString", 0, "test error one", true⟩) = some (h', m) ∧
      ∃ st, jsonStck (stackOf h' m) = some st :=
  ⟨trivial, rfl, trivial, by decide,
    let ⟨h', m, hrun, _, _, hst, _⟩ :=
      serialization_of_masked_stack plainSprintf isPrintASCII
        [Op.mask "C:/a.go" 1, Op.maskf "b.go" 22 "annotation" []] []
        (GoError.other ⟨"*errors.errorString", 0, "test error one", true⟩) trivial rfl trivial
        (by decide)
    ⟨h', m, hrun, hst⟩⟩

/-! ## A masked error stays comparable -/

end Tracer
